import Mathlib

/-!
Verification of `otpush/receive.py` (ostree-push): a shallow embedding of the
ref-reconciliation and commit-rewrite engine (`OTReceiveRepo.receive`,
`OTReceiveRepo.copy_commit`, `OTReceiveRepo.update_repo_metadata`, and the
helpers they use), together with theorems settling the specification claims.

Modelling conventions:
- Refs are `String`s, revisions (checksums) are `Nat`s; writing a commit
  object allocates a fresh revision id (one more than the largest id in the
  store), which models content-addressed checksums faithfully enough: a fresh
  checksum never collides with an existing object.
- The python `dict`s of refs (`remote_refs`, `current_refs`) are association
  lists queried with `alookup` (first match wins).
- GLib `GVariantDict` commit metadata is an association list of
  `String × MetaVal` with insert/remove/lookup operations.
- The ostree repository transaction (`prepare_transaction`,
  `transaction_set_refspec`, `commit_transaction`, `abort_transaction`) is
  modelled by an explicit `Staged` record: objects pulled or written during
  the transaction and staged refspec updates.  `commitTx` publishes them;
  aborting simply discards them, so an outcome whose repository equals the
  input repository models "no visible effect".
- `receive` returns an `Outcome`: the python return value (or the raised
  error message) in an `Except`, the final repository state, the trace of
  transaction events, and the metadata-update command invoked (if any).
-/

namespace OtPush

/-- First-match association list lookup, modelling python `dict.get` (for
`String`-keyed ref tables) and object-store lookup (for `Nat`-keyed
checksums). -/
def alookup {α β : Type} [DecidableEq α] : List (α × β) → α → Option β
  | [], _ => none
  | (k, v) :: rest, key => if k = key then some v else alookup rest key

/-- Values stored in a commit metadata dictionary: an `as` GVariant (array of
strings) or an `s` GVariant (string).  Only these two shapes are written by
`copy_commit`. -/
inductive MetaVal : Type
  | vs (l : List String)
  | s (v : String)
deriving DecidableEq

/-- Commit metadata dictionary, modelling `GLib.VariantDict`. -/
abbrev MetaDict := List (String × MetaVal)

/-- Models `GLib.VariantDict.insert_value`: replace the binding for `k` if present,
else append it. -/
def dictInsert (d : MetaDict) (k : String) (v : MetaVal) : MetaDict :=
  if (alookup d k).isSome then
    d.map (fun p => if p.1 = k then (k, v) else p)
  else
    d ++ [(k, v)]

/-- Models `GLib.VariantDict.remove`. -/
def dictRemove : MetaDict → String → MetaDict
  | [], _ => []
  | p :: rest, k => if p.1 = k then dictRemove rest k else p :: dictRemove rest k

/-- Models `OSTree.RepoCommitState`: only NORMAL commits may be copied. -/
inductive CommitState : Type
  | NORMAL
  | PARTIAL
deriving DecidableEq

/-- An ostree commit object, as read through `load_commit`/`read_commit`:
the commit metadata vardict (child 0), subject (child 3), body (child 4),
parent checksum, root content tree (trees are compared only for structural
equality, so a tree is an opaque id), timestamp, lifecycle state, and
whether detached metadata (e.g. a GPG signature) is attached. -/
structure Commit : Type where
  state : CommitState
  metadata : MetaDict
  subject : String
  body : String
  parent : Option Nat
  tree : Nat
  timestamp : Nat
  detachedMeta : Bool
deriving DecidableEq

/-- The local repository: local refs (as listed by `_get_local_refs`, i.e.
excluding remotes and mirrors), the object store, and the collection id
from the repo config (`get_collection_id`). -/
structure Repo : Type where
  refs : List (String × Nat)
  objects : List (Nat × Commit)
  collectionId : Option String
deriving DecidableEq

/-- The remote repository as visible through the `_receive` remote: the ref
table advertised by its summary (`remote_list_refs`) and the objects
available for pulling. -/
structure Remote : Type where
  refs : List (String × Nat)
  objects : List (Nat × Commit)
deriving DecidableEq

/-- The fields of `OTReceiveConfig` that `receive` consults. -/
structure Config : Type where
  update : Bool := true
  force : Bool := false
  dry_run : Bool := false
deriving DecidableEq

/-- Objects and refspec updates staged inside an open repository
transaction. -/
structure Staged : Type where
  objects : List (Nat × Commit)
  refUpdates : List (String × Nat)
deriving DecidableEq

/-- Transaction events, to state that every path ends a transaction it
began exactly once. -/
inductive TxEvent : Type
  | prepare
  | commit
  | abort
deriving DecidableEq

/-- The external command run by `update_repo_metadata`. -/
inductive MetaCmd : Type
  | flatpakBuildUpdateRepo
  | ostreeSummaryUpdate
deriving DecidableEq

deriving instance DecidableEq for Except

/-- Result of one `receive` call: the returned ref names (or the error
raised), the final local repository, the transaction trace, and the
metadata command invoked afterwards (if any). -/
structure Outcome : Type where
  result : Except String (List String)
  repo : Repo
  txEvents : List TxEvent
  metaCmd : Option MetaCmd
deriving DecidableEq

/-! ### Glob matching (`fnmatch.filter`) and the excluded patterns -/

/-- Glob matching for patterns built from literal characters and `*`
(`*` matches any run of characters, including `/` — `fnmatch` semantics;
the patterns in `EXCLUDED_REF_PATTERNS` use no other glob syntax). -/
def globMatch : List Char → List Char → Bool
  | [], s => s.isEmpty
  | '*' :: ps, s => s.tails.any (fun t => globMatch ps t)
  | p :: ps, s =>
    match s with
    | [] => false
    | c :: s' => p = c && globMatch ps s'

/-- Models `fnmatch.fnmatch(s, pat)` for the patterns used here. -/
def fnmatch (pat s : String) : Bool :=
  globMatch pat.toList s.toList

/-- Character-list prefix test. -/
def charPre : List Char → List Char → Bool
  | [], _ => true
  | _ :: _, [] => false
  | c :: cs, d :: ds => c = d && charPre cs ds

/-- Models `str.startswith(p)`. -/
def strStarts (s p : String) : Bool := charPre p.toList s.toList

/-- The constant `OSTree.REPO_METADATA_REF`. -/
def REPO_METADATA_REF : String := "ostree-metadata"

/-- From `OTReceiveRepo.EXCLUDED_REF_PATTERNS`: generated ref patterns. -/
def EXCLUDED_REF_PATTERNS : List String :=
  ["appstream/*", "appstream2/*", REPO_METADATA_REF]

/-- Whether a ref matches one of the excluded generated-ref patterns. -/
def excludedRef (r : String) : Bool :=
  EXCLUDED_REF_PATTERNS.any (fun pat => fnmatch pat r)

/-! ### Sorting and deduplication (`sorted(set(refs))`) -/

/-- Lexicographic comparison of character lists by code point (the order
python `sorted` uses on strings). -/
def strListLe : List Char → List Char → Bool
  | [], _ => true
  | _ :: _, [] => false
  | a :: as, b :: bs =>
    if a.toNat < b.toNat then true
    else if b.toNat < a.toNat then false
    else strListLe as bs

/-- String comparison by code point, python's string ordering. -/
def strLe (s t : String) : Bool := strListLe s.toList t.toList

/-- Insert a string into a (sorted) list, preserving sortedness. -/
def insertSorted (s : String) : List String → List String
  | [] => [s]
  | t :: ts => if strLe s t = true then s :: t :: ts else t :: insertSorted s ts

/-- Insertion sort on strings, modelling python `sorted`. -/
def sortStrings : List String → List String
  | [] => []
  | s :: ss => insertSorted s (sortStrings ss)

/-- Deduplicate a list of strings, modelling python `set(refs)` (the order
is irrelevant because the result is then sorted). -/
def dedupStrings : List String → List String
  | [] => []
  | s :: ss => if s ∈ dedupStrings ss then dedupStrings ss else s :: dedupStrings ss

/-- Deduplicate a list of revisions, modelling
`list(set(refs_to_pull.values()))`. -/
def dedupNats : List Nat → List Nat
  | [] => []
  | n :: ns => if n ∈ dedupNats ns then dedupNats ns else n :: dedupNats ns

/-! ### The receive pipeline -/

/-- The `wanted_refs` computation at the top of `receive`: if the requested
ref set is empty, use all remote refs; strip duplicates; remove refs
matching the excluded generated patterns (the source applies the exclusion
unconditionally, to explicitly named refs as well); sort. -/
def wantedRefs (reqRefs : List String) (remoteRefs : List (String × Nat)) :
    List String :=
  let refs0 := if reqRefs.length = 0 then remoteRefs.map Prod.fst else reqRefs
  let refs1 := (dedupStrings refs0).filter (fun r => ¬ excludedRef r = true)
  sortStrings refs1

/-- The `refs_to_pull` loop of `receive`: for each wanted ref (in order),
fail with `Could not find ref ... in summary file` as soon as the ref has
no remote revision (the loop raises at the first missing ref); otherwise
keep the ref when `force` is set or the remote revision differs from the
current local revision. -/
def refsToPull (localRefs remoteRefs : List (String × Nat)) (force : Bool) :
    List String → Except String (List (String × Nat))
  | [] => .ok []
  | ref :: rest =>
    match alookup remoteRefs ref with
    | none => .error ("Could not find ref " ++ ref ++ " in summary file")
    | some remote_rev =>
      match refsToPull localRefs remoteRefs force rest with
      | .error e => .error e
      | .ok tail =>
        if force = true ∨ ¬ some remote_rev = alookup localRefs ref then
          .ok ((ref, remote_rev) :: tail)
        else
          .ok tail

/-- Models `_pull_commits`: fetch each named commit from the remote into the
transaction's staging area; a commit the remote cannot supply is a pull
error. -/
def pull_commits (remote : Remote) : List Nat → Except String (List (Nat × Commit))
  | [] => .ok []
  | rev :: rest =>
    match alookup remote.objects rev with
    | none => .error ("Commit " ++ toString rev ++ " not available from remote")
    | some c =>
      match pull_commits remote rest with
      | .error e => .error e
      | .ok tail => .ok ((rev, c) :: tail)

/-- Models `load_commit`/`read_commit` during an open transaction: objects already
in the repository are found first, then objects staged by the pull. -/
def loadCommit (repo : Repo) (staged : List (Nat × Commit)) (rev : Nat) :
    Option Commit :=
  alookup (repo.objects ++ staged) rev

/-- Warnings logged by the merge-candidate check of `receive`. -/
inductive MergeWarning : Type
  | notNewer
  | treesEqual
deriving DecidableEq

/-- The timestamp/tree comparison of `receive` for a ref whose current and
remote commits are both loaded: merge when the remote commit is strictly
newer and the root trees differ; otherwise log the applicable warnings and
merge only under `force`. -/
def mergeCheck (force : Bool) (curC remC : Commit) : Bool × List MergeWarning :=
  if remC.timestamp > curC.timestamp ∧ ¬ curC.tree = remC.tree then
    (true, [])
  else
    let w1 := if remC.timestamp ≤ curC.timestamp then [MergeWarning.notNewer] else []
    let w2 := if curC.tree = remC.tree then [MergeWarning.treesEqual] else []
    (force, w1 ++ w2)

/-- The per-ref body of the `refs_to_merge` loop of `receive`: a ref with
no current local revision is merged outright; otherwise both commits are
loaded (an unloadable commit is an error) and `mergeCheck` decides. -/
def mergeDecision (repo : Repo) (force : Bool) (pulled : List (Nat × Commit))
    (ref : String) (remote_rev : Nat) : Except String (Bool × List MergeWarning) :=
  match alookup repo.refs ref with
  | none => .ok (true, [])
  | some current_rev =>
    match loadCommit repo pulled current_rev, loadCommit repo pulled remote_rev with
    | some curC, some remC => .ok (mergeCheck force curC remC)
    | _, _ => .error "No such metadata object"

/-- The `refs_to_merge` loop of `receive`, over the `refs_to_pull` pairs in
order. -/
def refsToMerge (repo : Repo) (force : Bool) (pulled : List (Nat × Commit)) :
    List (String × Nat) → Except String (List (String × Nat))
  | [] => .ok []
  | (ref, remote_rev) :: rest =>
    match mergeDecision repo force pulled ref remote_rev with
    | .error e => .error e
    | .ok d =>
      match refsToMerge repo force pulled rest with
      | .error e => .error e
      | .ok tail => .ok (if d.1 = true then (ref, remote_rev) :: tail else tail)

/-- The constant `OSTree.COMMIT_META_KEY_REF_BINDING`. -/
def COMMIT_META_KEY_REF_BINDING : String := "ostree.ref-binding"

/-- The constant `OSTree.COMMIT_META_KEY_COLLECTION_BINDING`. -/
def COMMIT_META_KEY_COLLECTION_BINDING : String := "ostree.collection-binding"

/-- Models `_is_flatpak_ref`. -/
def is_flatpak_ref (ref : String) : Bool :=
  strStarts ref "app/" || strStarts ref "runtime/"

/-- A fresh revision id for a newly written object: one more than the
largest id present, so it collides with nothing in the store. -/
def freshRev (objs : List (Nat × Commit)) : Nat :=
  (objs.map Prod.fst).foldr max 0 + 1

/-- The commit-metadata rewrite of `copy_commit`: start from the source
commit's metadata vardict; replace the ref binding with the singleton
`[ref]`; set the collection binding to the repo's collection id, or remove
the key when the repo has none; add the `xa.ref` and `xa.from_commit`
compatibility keys for flatpak refs. -/
def copyMetadata (srcMd : MetaDict) (cid : Option String) (ref : String)
    (rev : Nat) : MetaDict :=
  let md0 := dictInsert srcMd COMMIT_META_KEY_REF_BINDING (MetaVal.vs [ref])
  let md1 :=
    match cid with
    | some c => dictInsert md0 COMMIT_META_KEY_COLLECTION_BINDING (MetaVal.s c)
    | none => dictRemove md0 COMMIT_META_KEY_COLLECTION_BINDING
  if is_flatpak_ref ref then
    dictInsert (dictInsert md1 "xa.ref" (MetaVal.s ref))
      "xa.from_commit" (MetaVal.s (toString rev))
  else md1

/-- Models `copy_commit(rev, ref)`: refuse irregular commits; rewrite the commit
metadata with `copyMetadata`; never copy detached metadata.  The current
value of the destination ref (resolved with `allow_noent`) becomes the
parent.  The content tree, subject, body, and timestamp are taken verbatim
from the source commit.  The new commit is written into the transaction
and the ref update to it is staged (`transaction_set_refspec`). -/
def copy_commit (repo : Repo) (staged : Staged) (rev : Nat) (ref : String) :
    Except String (Nat × Staged) :=
  match loadCommit repo staged.objects rev with
  | none => .error "No such metadata object"
  | some src =>
    if ¬ src.state = CommitState.NORMAL then
      .error ("Cannot copy irregular commit " ++ toString rev)
    else
      let parent := alookup repo.refs ref
      let newC : Commit :=
        { state := CommitState.NORMAL
          metadata := copyMetadata src.metadata repo.collectionId ref rev
          subject := src.subject
          body := src.body
          parent := parent
          tree := src.tree
          timestamp := src.timestamp
          detachedMeta := false }
      let checksum := freshRev (repo.objects ++ staged.objects)
      .ok (checksum,
        { objects := staged.objects ++ [(checksum, newC)]
          refUpdates := staged.refUpdates ++ [(ref, checksum)] })

/-- The copy loop of `receive`: `copy_commit` for every merge candidate in
order, threading the transaction state. -/
def copyAll (repo : Repo) (staged : Staged) :
    List (String × Nat) → Except String Staged
  | [] => .ok staged
  | (ref, rev) :: rest =>
    match copy_commit repo staged rev ref with
    | .error e => .error e
    | .ok (_, staged') => copyAll repo staged' rest

/-- Models `OSTree.Repo.transaction_set_refspec` as applied at commit time:
update the ref if present, else create it. -/
def setRef (refs : List (String × Nat)) (r : String) (c : Nat) :
    List (String × Nat) :=
  if (alookup refs r).isSome then
    refs.map (fun p => if p.1 = r then (r, c) else p)
  else
    refs ++ [(r, c)]

/-- Apply the staged refspec updates in order. -/
def applyRefUpdates (refs : List (String × Nat)) :
    List (String × Nat) → List (String × Nat)
  | [] => refs
  | (r, c) :: rest => applyRefUpdates (setRef refs r c) rest

/-- Models `commit_transaction`: staged objects and refspec updates become
visible atomically. -/
def commitTx (repo : Repo) (staged : Staged) : Repo :=
  { repo with
    objects := repo.objects ++ staged.objects
    refs := applyRefUpdates repo.refs staged.refUpdates }

/-- Models `_is_flatpak_repo`: whether any local ref is an app/ or runtime/ ref. -/
def is_flatpak_repo (repo : Repo) : Bool :=
  repo.refs.any (fun p => is_flatpak_ref p.1)

/-- Models `update_repo_metadata`: run `flatpak build-update-repo` on a flatpak
repo, `ostree summary --update` otherwise. -/
def update_repo_metadata (repo : Repo) : MetaCmd :=
  if is_flatpak_repo repo then MetaCmd.flatpakBuildUpdateRepo
  else MetaCmd.ostreeSummaryUpdate

/-- Models `OTReceiveRepo.receive(refs)`.  Mirrors the source: compute the wanted
refs; build `refs_to_pull`, raising on a missing remote ref; return the
empty set with no transaction when nothing needs pulling; otherwise open a
transaction, pull the deduplicated commits, compute the merge candidates,
abort and return the empty set when there are none, abort and return the
candidate names on a dry run, otherwise rewrite every candidate with
`copy_commit` and commit the transaction (any error aborts it first), and
finally run `update_repo_metadata` when the config asks for it. -/
def receive (repo : Repo) (remote : Remote) (cfg : Config)
    (reqRefs : List String) : Outcome :=
  let ws := wantedRefs reqRefs remote.refs
  match refsToPull repo.refs remote.refs cfg.force ws with
  | .error e => { result := .error e, repo := repo, txEvents := [], metaCmd := none }
  | .ok rtp =>
    if rtp.length = 0 then
      { result := .ok [], repo := repo, txEvents := [], metaCmd := none }
    else
      match pull_commits remote (dedupNats (rtp.map Prod.snd)) with
      | .error e =>
        { result := .error e, repo := repo
          txEvents := [TxEvent.prepare, TxEvent.abort], metaCmd := none }
      | .ok pulled =>
        match refsToMerge repo cfg.force pulled rtp with
        | .error e =>
          { result := .error e, repo := repo
            txEvents := [TxEvent.prepare, TxEvent.abort], metaCmd := none }
        | .ok ms =>
          if ms.length = 0 then
            { result := .ok [], repo := repo
              txEvents := [TxEvent.prepare, TxEvent.abort], metaCmd := none }
          else if cfg.dry_run = true then
            { result := .ok (ms.map Prod.fst), repo := repo
              txEvents := [TxEvent.prepare, TxEvent.abort], metaCmd := none }
          else
            match copyAll repo { objects := pulled, refUpdates := [] } ms with
            | .error e =>
              { result := .error e, repo := repo
                txEvents := [TxEvent.prepare, TxEvent.abort], metaCmd := none }
            | .ok staged =>
              let repo' := commitTx repo staged
              { result := .ok (ms.map Prod.fst)
                repo := repo'
                txEvents := [TxEvent.prepare, TxEvent.commit]
                metaCmd :=
                  if cfg.update = true then some (update_repo_metadata repo')
                  else none }

/-! ### Concrete fixtures used in witnesses and counterexamples -/

/-- Whether `sub` occurs as a contiguous substring of `s` (python
`sub in s`), used to state that an error message does or does not name a
ref. -/
def strContainsSub (s sub : String) : Bool :=
  s.toList.tails.any (fun t => charPre sub.toList t)

/-- A normal commit with detached metadata, timestamp 100, tree 10. -/
def commitA : Commit :=
  { state := CommitState.NORMAL
    metadata := [("a", MetaVal.s "x")]
    subject := "subj"
    body := "body"
    parent := none
    tree := 10
    timestamp := 100
    detachedMeta := true }

/-- A normal commit, timestamp 200, tree 11. -/
def commitB : Commit :=
  { state := CommitState.NORMAL
    metadata := []
    subject := "s2"
    body := "b2"
    parent := none
    tree := 11
    timestamp := 200
    detachedMeta := false }

/-- A normal commit, timestamp 200, with the same tree as `commitA`. -/
def commitC : Commit :=
  { state := CommitState.NORMAL
    metadata := []
    subject := "s3"
    body := "b3"
    parent := none
    tree := 10
    timestamp := 200
    detachedMeta := false }

/-- An empty local repository. -/
def repoEmpty : Repo := { refs := [], objects := [], collectionId := none }

/-- A local repository already holding `test` at revision 1. -/
def repoT1 : Repo :=
  { refs := [("test", 1)], objects := [(1, commitA)], collectionId := none }

/-- A remote advertising `test` at revision 1 and supplying its commit. -/
def remoteTest : Remote := { refs := [("test", 1)], objects := [(1, commitA)] }

/-- The default configuration. -/
def cfgDef : Config := {}

/-- The default configuration with `dry_run` enabled. -/
def cfgDry : Config := { dry_run := true }

/-- The default configuration with `update` disabled (`--no-update`). -/
def cfgNoUpdate : Config := { update := false }

/-- A local repository already holding `skip` at the remote's revision. -/
def repoSkip : Repo :=
  { refs := [("skip", 7)], objects := [(7, commitB)], collectionId := none }

/-- A remote advertising `test` (new here) and `skip` (unchanged here). -/
def remoteTwo : Remote :=
  { refs := [("test", 1), ("skip", 7)]
    objects := [(1, commitA), (7, commitB)] }

/-- A transaction staging area holding the pulled `commitA`. -/
def stagedA : Staged := { objects := [(1, commitA)], refUpdates := [] }

/-- The commit `copy_commit` derives from `commitA` for the ref `test`. -/
def commitAcopy : Commit :=
  { state := CommitState.NORMAL
    metadata := copyMetadata commitA.metadata none "test" 1
    subject := commitA.subject
    body := commitA.body
    parent := alookup repoEmpty.refs "test"
    tree := commitA.tree
    timestamp := commitA.timestamp
    detachedMeta := false }

/-- The staging area after copying `commitA` onto the ref `test`. -/
def stagedA2 : Staged :=
  { objects := stagedA.objects ++ [(2, commitAcopy)]
    refUpdates := [("test", 2)] }

/-! ### Lookup lemmas -/

theorem alookup_cons {α β : Type} [DecidableEq α] (a : α) (b : β)
    (rest : List (α × β)) (k : α) :
    alookup ((a, b) :: rest) k = if a = k then some b else alookup rest k := rfl

theorem alookup_append {α β : Type} [DecidableEq α] (A B : List (α × β)) (k : α) :
    alookup (A ++ B) k =
      match alookup A k with
      | some v => some v
      | none => alookup B k := by
  induction A with
  | nil => simp [alookup]
  | cons p rest ih =>
    obtain ⟨a, b⟩ := p
    by_cases hak : a = k <;> simp [alookup_cons, hak, ih]

theorem alookup_append_some {α β : Type} [DecidableEq α] {A : List (α × β)}
    (B : List (α × β)) {k : α} {v : β} (h : alookup A k = some v) :
    alookup (A ++ B) k = some v := by
  rw [alookup_append, h]

theorem alookup_append_none {α β : Type} [DecidableEq α] {A : List (α × β)}
    (B : List (α × β)) {k : α} (h : alookup A k = none) :
    alookup (A ++ B) k = alookup B k := by
  rw [alookup_append, h]

theorem alookup_isSome_append {α β : Type} [DecidableEq α] {A B : List (α × β)}
    {k : α} (h : (alookup B k).isSome = true) :
    (alookup (A ++ B) k).isSome = true := by
  rw [alookup_append]
  cases hA : alookup A k <;> simp [h]

theorem alookup_mem_keys {α β : Type} [DecidableEq α] {L : List (α × β)}
    {k : α} {v : β} (h : alookup L k = some v) : k ∈ L.map Prod.fst := by
  induction L with
  | nil => simp [alookup] at h
  | cons p rest ih =>
    obtain ⟨a, b⟩ := p
    rw [alookup_cons] at h
    simp only [List.map_cons, List.mem_cons]
    by_cases hak : a = k
    · exact Or.inl hak.symm
    · rw [if_neg hak] at h
      exact Or.inr (ih h)

theorem alookup_not_mem_keys {α β : Type} [DecidableEq α] {L : List (α × β)}
    {k : α} (h : k ∉ L.map Prod.fst) : alookup L k = none := by
  cases hv : alookup L k with
  | none => rfl
  | some v => exact absurd (alookup_mem_keys hv) h

theorem alookup_mem_pair {α β : Type} [DecidableEq α] {L : List (α × β)}
    {k : α} {v : β} (h : alookup L k = some v) : (k, v) ∈ L := by
  induction L with
  | nil => simp [alookup] at h
  | cons p rest ih =>
    obtain ⟨a, b⟩ := p
    rw [alookup_cons] at h
    by_cases hak : a = k
    · rw [if_pos hak] at h
      injection h with h
      subst hak
      subst h
      exact List.mem_cons_self _ _
    · rw [if_neg hak] at h
      exact List.mem_cons_of_mem _ (ih h)

theorem alookup_isSome_of_mem_keys {α β : Type} [DecidableEq α]
    {L : List (α × β)} {k : α} (h : k ∈ L.map Prod.fst) :
    (alookup L k).isSome = true := by
  induction L with
  | nil => simp at h
  | cons p rest ih =>
    obtain ⟨a, b⟩ := p
    rw [alookup_cons]
    by_cases hak : a = k
    · rw [if_pos hak]
      rfl
    · rw [if_neg hak]
      apply ih
      simp only [List.map_cons, List.mem_cons] at h
      rcases h with h | h
      · exact absurd h.symm hak
      · exact h

/-! ### Fresh revision lemmas -/

theorem lt_freshRev_of_mem {objs : List (Nat × Commit)} {k : Nat}
    (h : k ∈ objs.map Prod.fst) : k < freshRev objs := by
  unfold freshRev
  have hle : k ≤ (objs.map Prod.fst).foldr max 0 := by
    induction objs with
    | nil => simp at h
    | cons p rest ih =>
      simp only [List.map_cons, List.mem_cons] at h
      simp only [List.map_cons, List.foldr_cons]
      rcases h with h | h
      · exact h ▸ le_max_left _ _
      · exact le_trans (ih h) (le_max_right _ _)
  omega

theorem alookup_freshRev_none (objs : List (Nat × Commit)) :
    alookup objs (freshRev objs) = none := by
  apply alookup_not_mem_keys
  intro hmem
  exact absurd (lt_freshRev_of_mem hmem) (by omega)

theorem freshRev_not_mem_of_le {objs : List (Nat × Commit)} {k : Nat}
    (h : freshRev objs ≤ k) : k ∉ objs.map Prod.fst := by
  intro hmem
  exact absurd (lt_freshRev_of_mem hmem) (by omega)

/-! ### Map-replace lemmas, shared by `dictInsert` and `setRef` -/

theorem alookup_mapReplace_self {β : Type} {L : List (String × β)} {k : String}
    (v : β) (hs : (alookup L k).isSome = true) :
    alookup (L.map (fun p => if p.1 = k then (k, v) else p)) k = some v := by
  induction L with
  | nil => simp [alookup] at hs
  | cons p rest ih =>
    obtain ⟨a, b⟩ := p
    simp only [List.map_cons]
    by_cases hak : (a, b).1 = k
    · rw [if_pos hak, alookup_cons, if_pos rfl]
    · rw [if_neg hak, alookup_cons, if_neg hak]
      rw [alookup_cons, if_neg hak] at hs
      exact ih hs

theorem alookup_mapReplace_ne {β : Type} (L : List (String × β)) {k k' : String}
    (v : β) (h : ¬ k = k') :
    alookup (L.map (fun p => if p.1 = k then (k, v) else p)) k' = alookup L k' := by
  induction L with
  | nil => rfl
  | cons p rest ih =>
    obtain ⟨a, b⟩ := p
    simp only [List.map_cons]
    by_cases hak : (a, b).1 = k
    · have hak2 : a = k := hak
      rw [if_pos hak, alookup_cons, if_neg h, ih, alookup_cons,
        if_neg (fun hh : a = k' => h (hak2 ▸ hh))]
    · rw [if_neg hak, alookup_cons, alookup_cons, ih]

/-! ### Metadata dictionary lemmas -/

theorem isSome_ne_none {β : Type} {o : Option β} (hs : ¬ o.isSome = true) :
    o = none := by
  cases o
  · rfl
  · simp at hs

theorem alookup_dictInsert_self (d : MetaDict) (k : String) (v : MetaVal) :
    alookup (dictInsert d k v) k = some v := by
  unfold dictInsert
  by_cases hs : (alookup d k).isSome = true
  · rw [if_pos hs]
    exact alookup_mapReplace_self v hs
  · rw [if_neg hs, alookup_append_none _ (isSome_ne_none hs), alookup_cons,
      if_pos rfl]

theorem alookup_dictInsert_ne (d : MetaDict) {k k' : String} (v : MetaVal)
    (h : ¬ k = k') : alookup (dictInsert d k v) k' = alookup d k' := by
  unfold dictInsert
  by_cases hs : (alookup d k).isSome = true
  · rw [if_pos hs]
    exact alookup_mapReplace_ne d v h
  · rw [if_neg hs, alookup_append]
    cases hd : alookup d k'
    · rw [alookup_cons, if_neg h]
      rfl
    · rfl

theorem alookup_dictRemove_ne (d : MetaDict) {k k' : String}
    (h : ¬ k = k') : alookup (dictRemove d k) k' = alookup d k' := by
  induction d with
  | nil => rfl
  | cons p rest ih =>
    obtain ⟨a, b⟩ := p
    unfold dictRemove
    by_cases hak : (a, b).1 = k
    · rw [if_pos hak, alookup_cons]
      simp only at hak
      rw [if_neg (fun hh : a = k' => h (hak ▸ hh ▸ rfl))]
      exact ih
    · rw [if_neg hak, alookup_cons, alookup_cons, ih]

/-! ### Ref update lemmas -/

theorem alookup_setRef_self (refs : List (String × Nat)) (r : String) (c : Nat) :
    alookup (setRef refs r c) r = some c := by
  unfold setRef
  by_cases hs : (alookup refs r).isSome = true
  · rw [if_pos hs]
    exact alookup_mapReplace_self c hs
  · rw [if_neg hs, alookup_append_none _ (isSome_ne_none hs), alookup_cons,
      if_pos rfl]

theorem alookup_setRef_ne (refs : List (String × Nat)) {r r' : String} (c : Nat)
    (h : ¬ r = r') : alookup (setRef refs r c) r' = alookup refs r' := by
  unfold setRef
  by_cases hs : (alookup refs r).isSome = true
  · rw [if_pos hs]
    exact alookup_mapReplace_ne refs c h
  · rw [if_neg hs, alookup_append]
    cases hd : alookup refs r'
    · rw [alookup_cons, if_neg h]
      rfl
    · rfl

theorem alookup_applyRefUpdates_not_mem (refs : List (String × Nat))
    {us : List (String × Nat)} {r : String} (h : r ∉ us.map Prod.fst) :
    alookup (applyRefUpdates refs us) r = alookup refs r := by
  induction us generalizing refs with
  | nil => rfl
  | cons p rest ih =>
    obtain ⟨a, c⟩ := p
    simp only [List.map_cons, List.mem_cons, not_or] at h
    obtain ⟨har, hrest⟩ := h
    unfold applyRefUpdates
    rw [ih (setRef refs a c) hrest]
    exact alookup_setRef_ne refs c (fun hh => har hh.symm)

theorem alookup_applyRefUpdates_last (refs : List (String × Nat))
    (us₁ : List (String × Nat)) {us₂ : List (String × Nat)} {r : String}
    {c : Nat} (h : r ∉ us₂.map Prod.fst) :
    alookup (applyRefUpdates refs (us₁ ++ (r, c) :: us₂)) r = some c := by
  induction us₁ generalizing refs with
  | nil =>
    simp only [List.nil_append]
    unfold applyRefUpdates
    rw [alookup_applyRefUpdates_not_mem _ h]
    exact alookup_setRef_self refs r c
  | cons p rest ih =>
    obtain ⟨a, b⟩ := p
    simp only [List.cons_append]
    unfold applyRefUpdates
    exact ih (setRef refs a b)

/-! ### Sorting and deduplication lemmas -/

theorem perm_insertSorted (s : String) (l : List String) :
    (insertSorted s l).Perm (s :: l) := by
  induction l with
  | nil => exact List.Perm.refl _
  | cons t ts ih =>
    unfold insertSorted
    by_cases hst : strLe s t = true
    · rw [if_pos hst]
    · rw [if_neg hst]
      exact (List.Perm.cons t ih).trans (List.Perm.swap s t ts)

theorem perm_sortStrings (l : List String) : (sortStrings l).Perm l := by
  induction l with
  | nil => exact List.Perm.refl _
  | cons s ss ih =>
    exact (perm_insertSorted s (sortStrings ss)).trans (List.Perm.cons s ih)

theorem mem_sortStrings {a : String} {l : List String} :
    a ∈ sortStrings l ↔ a ∈ l :=
  (perm_sortStrings l).mem_iff

theorem nodup_sortStrings {l : List String} (h : l.Nodup) :
    (sortStrings l).Nodup :=
  ((perm_sortStrings l).nodup_iff).mpr h

theorem mem_dedupStrings {a : String} {l : List String} :
    a ∈ dedupStrings l ↔ a ∈ l := by
  induction l with
  | nil => simp [dedupStrings]
  | cons s ss ih =>
    unfold dedupStrings
    by_cases hmem : s ∈ dedupStrings ss
    · rw [if_pos hmem]
      simp only [List.mem_cons]
      constructor
      · intro h
        exact Or.inr (ih.mp h)
      · intro h
        rcases h with h | h
        · exact h ▸ hmem
        · exact ih.mpr h
    · rw [if_neg hmem]
      simp only [List.mem_cons, ih]

theorem nodup_dedupStrings (l : List String) : (dedupStrings l).Nodup := by
  induction l with
  | nil => exact List.nodup_nil
  | cons s ss ih =>
    unfold dedupStrings
    by_cases hmem : s ∈ dedupStrings ss
    · rw [if_pos hmem]
      exact ih
    · rw [if_neg hmem]
      exact List.Nodup.cons hmem ih

theorem mem_dedupNats {a : Nat} {l : List Nat} :
    a ∈ dedupNats l ↔ a ∈ l := by
  induction l with
  | nil => simp [dedupNats]
  | cons s ss ih =>
    unfold dedupNats
    by_cases hmem : s ∈ dedupNats ss
    · rw [if_pos hmem]
      simp only [List.mem_cons]
      constructor
      · intro h
        exact Or.inr (ih.mp h)
      · intro h
        rcases h with h | h
        · exact h ▸ hmem
        · exact ih.mpr h
    · rw [if_neg hmem]
      simp only [List.mem_cons, ih]

/-! ### `wantedRefs` characterization -/

theorem nodup_wantedRefs (reqRefs : List String)
    (remoteRefs : List (String × Nat)) : (wantedRefs reqRefs remoteRefs).Nodup := by
  unfold wantedRefs
  exact nodup_sortStrings ((nodup_dedupStrings _).filter _)

theorem mem_wantedRefs {reqRefs : List String} {remoteRefs : List (String × Nat)}
    {r : String} :
    r ∈ wantedRefs reqRefs remoteRefs ↔
      ¬ excludedRef r = true ∧
        r ∈ (if reqRefs.length = 0 then remoteRefs.map Prod.fst else reqRefs) := by
  unfold wantedRefs
  rw [mem_sortStrings, List.mem_filter, mem_dedupStrings]
  constructor
  · intro ⟨h1, h2⟩
    exact ⟨by simpa using h2, h1⟩
  · intro ⟨h1, h2⟩
    exact ⟨h2, by simpa using h1⟩

/-! ### `refsToPull` lemmas -/

theorem refsToPull_mem {localRefs remoteRefs : List (String × Nat)} {force : Bool} :
    ∀ {ws : List String} {rs : List (String × Nat)},
      refsToPull localRefs remoteRefs force ws = .ok rs →
      ∀ ref rv, ((ref, rv) ∈ rs ↔
        ref ∈ ws ∧ alookup remoteRefs ref = some rv ∧
          (force = true ∨ ¬ some rv = alookup localRefs ref))
  | [], rs, h => by
    unfold refsToPull at h
    injection h with h
    subst h
    intro ref rv
    simp
  | a :: rest, rs, h => by
    unfold refsToPull at h
    cases hr : alookup remoteRefs a with
    | none =>
      rw [hr] at h
      exact Except.noConfusion h
    | some rv0 =>
      rw [hr] at h
      cases hrec : refsToPull localRefs remoteRefs force rest with
      | error e =>
        rw [hrec] at h
        exact Except.noConfusion h
      | ok tail =>
        rw [hrec] at h
        simp only [] at h
        have ihm := refsToPull_mem hrec
        by_cases hc : force = true ∨ ¬ some rv0 = alookup localRefs a
        · rw [if_pos hc] at h
          injection h with h
          subst h
          intro ref rv
          constructor
          · intro hm
            rcases List.mem_cons.mp hm with heq | hm
            · have h1 : ref = a := congrArg Prod.fst heq
              have h2 : rv = rv0 := congrArg Prod.snd heq
              subst h1
              subst h2
              exact ⟨List.mem_cons_self _ _, hr, hc⟩
            · obtain ⟨hw, hl, hcond⟩ := (ihm ref rv).mp hm
              exact ⟨List.mem_cons_of_mem _ hw, hl, hcond⟩
          · intro ⟨hw, hl, hcond⟩
            rcases List.mem_cons.mp hw with heq | hw
            · subst heq
              rw [hr] at hl
              injection hl with hl
              subst hl
              exact List.mem_cons_self _ _
            · exact List.mem_cons_of_mem _ ((ihm ref rv).mpr ⟨hw, hl, hcond⟩)
        · rw [if_neg hc] at h
          injection h with h
          subst h
          intro ref rv
          constructor
          · intro hm
            obtain ⟨hw, hl, hcond⟩ := (ihm ref rv).mp hm
            exact ⟨List.mem_cons_of_mem _ hw, hl, hcond⟩
          · intro ⟨hw, hl, hcond⟩
            rcases List.mem_cons.mp hw with heq | hw
            · subst heq
              rw [hr] at hl
              injection hl with hl
              subst hl
              exact absurd hcond hc
            · exact (ihm ref rv).mpr ⟨hw, hl, hcond⟩

theorem refsToPull_ok_present {localRefs remoteRefs : List (String × Nat)}
    {force : Bool} :
    ∀ {ws : List String} {rs : List (String × Nat)},
      refsToPull localRefs remoteRefs force ws = .ok rs →
      ∀ r ∈ ws, (alookup remoteRefs r).isSome = true
  | [], _, _ => by
    intro r hr
    simp at hr
  | a :: rest, rs, h => by
    unfold refsToPull at h
    cases hr : alookup remoteRefs a with
    | none =>
      rw [hr] at h
      exact Except.noConfusion h
    | some rv0 =>
      rw [hr] at h
      cases hrec : refsToPull localRefs remoteRefs force rest with
      | error e =>
        rw [hrec] at h
        exact Except.noConfusion h
      | ok tail =>
        intro r hmem
        rcases List.mem_cons.mp hmem with heq | hmem
        · rw [heq, hr]
          rfl
        · exact refsToPull_ok_present hrec r hmem

theorem refsToPull_ok_of_present {localRefs remoteRefs : List (String × Nat)}
    {force : Bool} :
    ∀ {ws : List String},
      (∀ r ∈ ws, (alookup remoteRefs r).isSome = true) →
      ∃ rs, refsToPull localRefs remoteRefs force ws = .ok rs
  | [], _ => ⟨[], rfl⟩
  | a :: rest, hp => by
    obtain ⟨tail, htail⟩ :=
      @refsToPull_ok_of_present localRefs remoteRefs force rest
        (fun r hr => hp r (List.mem_cons_of_mem _ hr))
    have ha := hp a (List.mem_cons_self _ _)
    cases hr : alookup remoteRefs a with
    | none =>
      rw [hr] at ha
      simp at ha
    | some rv0 =>
      by_cases hc : force = true ∨ ¬ some rv0 = alookup localRefs a
      · refine ⟨(a, rv0) :: tail, ?_⟩
        unfold refsToPull
        rw [hr, htail]
        simp only []
        rw [if_pos hc]
      · refine ⟨tail, ?_⟩
        unfold refsToPull
        rw [hr, htail]
        simp only []
        rw [if_neg hc]

theorem refsToPull_error_spec {localRefs remoteRefs : List (String × Nat)}
    {force : Bool} :
    ∀ {ws : List String} {e : String},
      refsToPull localRefs remoteRefs force ws = .error e →
      ∃ ws₁ r ws₂, ws = ws₁ ++ r :: ws₂ ∧ alookup remoteRefs r = none ∧
        (∀ r' ∈ ws₁, (alookup remoteRefs r').isSome = true) ∧
        e = "Could not find ref " ++ r ++ " in summary file"
  | [], e, h => by
    unfold refsToPull at h
    exact Except.noConfusion h
  | a :: rest, e, h => by
    unfold refsToPull at h
    cases hr : alookup remoteRefs a with
    | none =>
      rw [hr] at h
      injection h with h
      exact ⟨[], a, rest, rfl, hr, by simp, h.symm⟩
    | some rv0 =>
      rw [hr] at h
      cases hrec : refsToPull localRefs remoteRefs force rest with
      | error e' =>
        rw [hrec] at h
        injection h with h
        subst h
        obtain ⟨ws₁, r, ws₂, hsplit, hnone, hpre, hmsg⟩ :=
          refsToPull_error_spec hrec
        refine ⟨a :: ws₁, r, ws₂, by rw [hsplit, List.cons_append], hnone, ?_, hmsg⟩
        intro r' hr'
        rcases List.mem_cons.mp hr' with heq | hr'
        · rw [heq, hr]
          rfl
        · exact hpre r' hr'
      | ok tail =>
        rw [hrec] at h
        simp only [] at h
        by_cases hc : force = true ∨ ¬ some rv0 = alookup localRefs a
        · rw [if_pos hc] at h
          exact Except.noConfusion h
        · rw [if_neg hc] at h
          exact Except.noConfusion h

theorem refsToPull_keys_sublist {localRefs remoteRefs : List (String × Nat)}
    {force : Bool} :
    ∀ {ws : List String} {rs : List (String × Nat)},
      refsToPull localRefs remoteRefs force ws = .ok rs →
      List.Sublist (rs.map Prod.fst) ws
  | [], rs, h => by
    unfold refsToPull at h
    injection h with h
    subst h
    simp
  | a :: rest, rs, h => by
    unfold refsToPull at h
    cases hr : alookup remoteRefs a with
    | none =>
      rw [hr] at h
      exact Except.noConfusion h
    | some rv0 =>
      rw [hr] at h
      cases hrec : refsToPull localRefs remoteRefs force rest with
      | error e =>
        rw [hrec] at h
        exact Except.noConfusion h
      | ok tail =>
        rw [hrec] at h
        simp only [] at h
        have ihs := refsToPull_keys_sublist hrec
        by_cases hc : force = true ∨ ¬ some rv0 = alookup localRefs a
        · rw [if_pos hc] at h
          injection h with h
          subst h
          exact List.Sublist.cons₂ a ihs
        · rw [if_neg hc] at h
          injection h with h
          subst h
          exact List.Sublist.cons a ihs

/-! ### `pull_commits` lemmas -/

theorem pull_commits_ok_keys {remote : Remote} :
    ∀ {l : List Nat} {p : List (Nat × Commit)},
      pull_commits remote l = .ok p → p.map Prod.fst = l
  | [], p, h => by
    unfold pull_commits at h
    injection h with h
    subst h
    rfl
  | rv :: rest, p, h => by
    unfold pull_commits at h
    cases hr : alookup remote.objects rv with
    | none =>
      rw [hr] at h
      exact Except.noConfusion h
    | some c =>
      rw [hr] at h
      cases hrec : pull_commits remote rest with
      | error e =>
        rw [hrec] at h
        exact Except.noConfusion h
      | ok tail =>
        rw [hrec] at h
        injection h with h
        subst h
        simp [pull_commits_ok_keys hrec]

theorem pull_commits_ok_mem {remote : Remote} :
    ∀ {l : List Nat} {p : List (Nat × Commit)},
      pull_commits remote l = .ok p →
      ∀ rv c, (rv, c) ∈ p → alookup remote.objects rv = some c
  | [], p, h => by
    unfold pull_commits at h
    injection h with h
    subst h
    intro rv c hm
    simp at hm
  | rv0 :: rest, p, h => by
    unfold pull_commits at h
    cases hr : alookup remote.objects rv0 with
    | none =>
      rw [hr] at h
      exact Except.noConfusion h
    | some c0 =>
      rw [hr] at h
      cases hrec : pull_commits remote rest with
      | error e =>
        rw [hrec] at h
        exact Except.noConfusion h
      | ok tail =>
        rw [hrec] at h
        injection h with h
        subst h
        intro rv c hm
        rcases List.mem_cons.mp hm with heq | hm
        · have h1 : rv = rv0 := congrArg Prod.fst heq
          have h2 : c = c0 := congrArg Prod.snd heq
          subst h1
          subst h2
          exact hr
        · exact pull_commits_ok_mem hrec rv c hm

theorem pull_commits_ok_of_present {remote : Remote} :
    ∀ {l : List Nat},
      (∀ rv ∈ l, (alookup remote.objects rv).isSome = true) →
      ∃ p, pull_commits remote l = .ok p
  | [], _ => ⟨[], rfl⟩
  | rv :: rest, hp => by
    obtain ⟨tail, htail⟩ :=
      pull_commits_ok_of_present (fun x hx => hp x (List.mem_cons_of_mem _ hx))
    have ha := hp rv (List.mem_cons_self _ _)
    cases hr : alookup remote.objects rv with
    | none =>
      rw [hr] at ha
      simp at ha
    | some c =>
      exact ⟨(rv, c) :: tail, by unfold pull_commits; rw [hr, htail]⟩

/-! ### `refsToMerge` lemmas -/

theorem refsToMerge_sub {repo : Repo} {force : Bool} {pulled : List (Nat × Commit)} :
    ∀ {l ms : List (String × Nat)},
      refsToMerge repo force pulled l = .ok ms → ∀ x ∈ ms, x ∈ l
  | [], ms, h => by
    unfold refsToMerge at h
    injection h with h
    subst h
    intro x hx
    simp at hx
  | (a, av) :: rest, ms, h => by
    unfold refsToMerge at h
    cases hd : mergeDecision repo force pulled a av with
    | error e =>
      rw [hd] at h
      exact Except.noConfusion h
    | ok d =>
      rw [hd] at h
      cases hrec : refsToMerge repo force pulled rest with
      | error e =>
        rw [hrec] at h
        exact Except.noConfusion h
      | ok tail =>
        rw [hrec] at h
        injection h with h
        subst h
        intro x hx
        by_cases hdt : d.1 = true
        · rw [if_pos hdt] at hx
          rcases List.mem_cons.mp hx with heq | hx
          · exact heq ▸ List.mem_cons_self _ _
          · exact List.mem_cons_of_mem _ (refsToMerge_sub hrec x hx)
        · rw [if_neg hdt] at hx
          exact List.mem_cons_of_mem _ (refsToMerge_sub hrec x hx)

theorem refsToMerge_keys_sublist {repo : Repo} {force : Bool}
    {pulled : List (Nat × Commit)} :
    ∀ {l ms : List (String × Nat)},
      refsToMerge repo force pulled l = .ok ms →
      List.Sublist (ms.map Prod.fst) (l.map Prod.fst)
  | [], ms, h => by
    unfold refsToMerge at h
    injection h with h
    subst h
    simp
  | (a, av) :: rest, ms, h => by
    unfold refsToMerge at h
    cases hd : mergeDecision repo force pulled a av with
    | error e =>
      rw [hd] at h
      exact Except.noConfusion h
    | ok d =>
      rw [hd] at h
      cases hrec : refsToMerge repo force pulled rest with
      | error e =>
        rw [hrec] at h
        exact Except.noConfusion h
      | ok tail =>
        rw [hrec] at h
        injection h with h
        subst h
        have ihs := refsToMerge_keys_sublist hrec
        by_cases hdt : d.1 = true
        · rw [if_pos hdt]
          exact List.Sublist.cons₂ a ihs
        · rw [if_neg hdt]
          exact List.Sublist.cons a ihs

theorem refsToMerge_mem_decision {repo : Repo} {force : Bool}
    {pulled : List (Nat × Commit)} :
    ∀ {l ms : List (String × Nat)},
      (l.map Prod.fst).Nodup →
      refsToMerge repo force pulled l = .ok ms →
      ∀ r rv, (r, rv) ∈ l →
        ∃ d, mergeDecision repo force pulled r rv = .ok d ∧
          ((r, rv) ∈ ms ↔ d.1 = true)
  | [], ms, _, h => by
    intro r rv hm
    simp at hm
  | (a, av) :: rest, ms, hnd, h => by
    unfold refsToMerge at h
    cases hd : mergeDecision repo force pulled a av with
    | error e =>
      rw [hd] at h
      exact Except.noConfusion h
    | ok d =>
      rw [hd] at h
      cases hrec : refsToMerge repo force pulled rest with
      | error e =>
        rw [hrec] at h
        exact Except.noConfusion h
      | ok tail =>
        rw [hrec] at h
        injection h with h
        subst h
        simp only [List.map_cons, List.nodup_cons] at hnd
        obtain ⟨hna, hndrest⟩ := hnd
        intro r rv hm
        rcases List.mem_cons.mp hm with heq | hm
        · have h1 : r = a := congrArg Prod.fst heq
          have h2 : rv = av := congrArg Prod.snd heq
          subst h1
          subst h2
          refine ⟨d, hd, ?_⟩
          by_cases hdt : d.1 = true
          · rw [if_pos hdt]
            simp [hdt]
          · rw [if_neg hdt]
            constructor
            · intro hmem
              have := refsToMerge_sub hrec _ hmem
              exact absurd (List.mem_map_of_mem Prod.fst this) hna
            · intro hh
              exact absurd hh hdt
        · obtain ⟨d', hd', hiff⟩ := refsToMerge_mem_decision hndrest hrec r rv hm
          refine ⟨d', hd', ?_⟩
          have hrneqa : ¬ (r, rv) = (a, av) := by
            intro heq2
            have : r = a := congrArg Prod.fst heq2
            exact hna (this ▸ List.mem_map_of_mem Prod.fst hm)
          by_cases hdt : d.1 = true
          · rw [if_pos hdt]
            rw [List.mem_cons]
            constructor
            · intro hh
              rcases hh with hh | hh
              · exact absurd hh hrneqa
              · exact hiff.mp hh
            · intro hh
              exact Or.inr (hiff.mpr hh)
          · rw [if_neg hdt]
            exact hiff

theorem refsToMerge_all_false {repo : Repo} {force : Bool}
    {pulled : List (Nat × Commit)} :
    ∀ {l : List (String × Nat)},
      (∀ r rv, (r, rv) ∈ l →
        ∃ w, mergeDecision repo force pulled r rv = .ok (false, w)) →
      refsToMerge repo force pulled l = .ok []
  | [], _ => rfl
  | (a, av) :: rest, hall => by
    obtain ⟨w, hw⟩ := hall a av (List.mem_cons_self _ _)
    have htail : refsToMerge repo force pulled rest = .ok [] :=
      refsToMerge_all_false (fun r rv hm => hall r rv (List.mem_cons_of_mem _ hm))
    unfold refsToMerge
    rw [hw, htail]
    rfl

/-! ### `loadCommit` stability lemmas -/

theorem loadCommit_append_stable {repo : Repo} {A : List (Nat × Commit)}
    (B : List (Nat × Commit)) {rv : Nat}
    (h : (loadCommit repo A rv).isSome = true) :
    loadCommit repo (A ++ B) rv = loadCommit repo A rv := by
  unfold loadCommit at h ⊢
  rw [← List.append_assoc]
  cases hv : alookup (repo.objects ++ A) rv with
  | none => rw [hv] at h; simp at h
  | some v => exact alookup_append_some B hv

theorem loadCommit_isSome_of_staged {repo : Repo} {A : List (Nat × Commit)}
    {rv : Nat} (h : rv ∈ A.map Prod.fst) :
    (loadCommit repo A rv).isSome = true := by
  unfold loadCommit
  rw [alookup_append]
  cases hv : alookup repo.objects rv with
  | some v => rfl
  | none => exact alookup_isSome_of_mem_keys h

/-- Publishing extends the object store: a commit loadable during the
transaction is found unchanged in the committed repository extended by any
later staging. -/
theorem loadCommit_commitTx_stable {repo : Repo} {staged : Staged}
    {pulled ext P : List (Nat × Commit)} {rv : Nat} {c : Commit}
    (hobj : staged.objects = pulled ++ ext)
    (h : loadCommit repo pulled rv = some c) :
    loadCommit (commitTx repo staged) P rv = some c := by
  unfold loadCommit at h ⊢
  unfold commitTx
  simp only [hobj]
  rw [← List.append_assoc]
  exact alookup_append_some _ (alookup_append_some _ h)

/-! ### `copy_commit` characterization -/

theorem alookup_copyMetadata_ref_binding (srcMd : MetaDict) (cid : Option String)
    (ref : String) (rev : Nat) :
    alookup (copyMetadata srcMd cid ref rev) COMMIT_META_KEY_REF_BINDING =
      some (MetaVal.vs [ref]) := by
  cases cid with
  | none =>
    simp only [copyMetadata]
    by_cases hf : is_flatpak_ref ref = true
    · rw [if_pos hf, alookup_dictInsert_ne _ _ (by decide),
        alookup_dictInsert_ne _ _ (by decide),
        alookup_dictRemove_ne _ (by decide)]
      exact alookup_dictInsert_self _ _ _
    · rw [if_neg hf, alookup_dictRemove_ne _ (by decide)]
      exact alookup_dictInsert_self _ _ _
  | some cc =>
    simp only [copyMetadata]
    by_cases hf : is_flatpak_ref ref = true
    · rw [if_pos hf, alookup_dictInsert_ne _ _ (by decide),
        alookup_dictInsert_ne _ _ (by decide),
        alookup_dictInsert_ne _ _ (by decide)]
      exact alookup_dictInsert_self _ _ _
    · rw [if_neg hf, alookup_dictInsert_ne _ _ (by decide)]
      exact alookup_dictInsert_self _ _ _

set_option maxHeartbeats 1600000 in
theorem copy_commit_spec {repo : Repo} {staged : Staged} {rev : Nat}
    {ref : String} {c : Nat} {st' : Staged}
    (h : copy_commit repo staged rev ref = .ok (c, st')) :
    ∃ src nc,
      loadCommit repo staged.objects rev = some src ∧
      src.state = CommitState.NORMAL ∧
      c = freshRev (repo.objects ++ staged.objects) ∧
      st'.objects = staged.objects ++ [(c, nc)] ∧
      st'.refUpdates = staged.refUpdates ++ [(ref, c)] ∧
      nc.state = CommitState.NORMAL ∧
      nc.tree = src.tree ∧
      nc.timestamp = src.timestamp ∧
      nc.subject = src.subject ∧
      nc.body = src.body ∧
      nc.parent = alookup repo.refs ref ∧
      nc.detachedMeta = false ∧
      alookup nc.metadata COMMIT_META_KEY_REF_BINDING = some (MetaVal.vs [ref]) := by
  unfold copy_commit at h
  cases hl : loadCommit repo staged.objects rev with
  | none =>
    rw [hl] at h
    exact Except.noConfusion h
  | some src =>
    rw [hl] at h
    simp only [] at h
    by_cases hst : src.state = CommitState.NORMAL
    · rw [if_neg (not_not_intro hst)] at h
      injection h with h
      injection h with h1 h2
      subst h1
      subst h2
      exact ⟨src, _, rfl, hst, rfl, rfl, rfl, rfl, rfl, rfl, rfl, rfl, rfl, rfl,
        alookup_copyMetadata_ref_binding _ _ _ _⟩
    · rw [if_pos hst] at h
      exact Except.noConfusion h

/-! ### `copyAll` tracking -/

theorem alookup_applyRefUpdates_of_mem (refs : List (String × Nat))
    {us : List (String × Nat)} {r : String} {c : Nat}
    (hnd : (us.map Prod.fst).Nodup) (hm : (r, c) ∈ us) :
    alookup (applyRefUpdates refs us) r = some c := by
  obtain ⟨us₁, us₂, heq⟩ := List.append_of_mem hm
  subst heq
  apply alookup_applyRefUpdates_last
  have h2 : (List.map Prod.fst us₁ ++ r :: List.map Prod.fst us₂).Nodup := by
    simpa using hnd
  have h3 := (List.nodup_append.mp h2).2.1
  exact (List.nodup_cons.mp h3).1

theorem alookup_fresh_insert {A B : List (Nat × Commit)} {c0 : Nat} {nc0 : Commit}
    (h : alookup A c0 = none) :
    alookup (A ++ ((c0, nc0) :: B)) c0 = some nc0 := by
  rw [alookup_append_none _ h, alookup_cons, if_pos rfl]

theorem copyAll_spec {repo : Repo} :
    ∀ {ms : List (String × Nat)} {staged st : Staged},
      copyAll repo staged ms = .ok st →
      (∃ ext, st.objects = staged.objects ++ ext) ∧
      (∃ extR, st.refUpdates = staged.refUpdates ++ extR ∧
        extR.map Prod.fst = ms.map Prod.fst) ∧
      (∀ r rv, (r, rv) ∈ ms →
        (loadCommit repo staged.objects rv).isSome = true →
        ∃ c src nc,
          loadCommit repo staged.objects rv = some src ∧
          (r, c) ∈ st.refUpdates ∧
          alookup (repo.objects ++ st.objects) c = some nc ∧
          nc.timestamp = src.timestamp ∧
          nc.tree = src.tree)
  | [], staged, st, h => by
    unfold copyAll at h
    injection h with h
    subst h
    refine ⟨⟨[], by simp⟩, ⟨[], by simp, rfl⟩, ?_⟩
    intro r rv hm
    simp at hm
  | (a, av) :: rest, staged, st, h => by
    unfold copyAll at h
    cases hcc : copy_commit repo staged av a with
    | error e =>
      rw [hcc] at h
      exact Except.noConfusion h
    | ok pr =>
      obtain ⟨c0, staged₁⟩ := pr
      rw [hcc] at h
      simp only [] at h
      obtain ⟨src0, nc0, hl0, hst0, hc0, hobj1, hrefu1, _, htree0, hts0,
        _, _, _, _, hrb0⟩ := copy_commit_spec hcc
      obtain ⟨⟨ext1, hext1⟩, ⟨extR1, hextR1, hkeys1⟩, hper⟩ := copyAll_spec h
      refine ⟨⟨(c0, nc0) :: ext1, ?_⟩, ⟨(a, c0) :: extR1, ?_, ?_⟩, ?_⟩
      · rw [hext1, hobj1]
        simp [List.append_assoc]
      · rw [hextR1, hrefu1]
        simp [List.append_assoc]
      · simp [hkeys1]
      · intro r rv hm hIs
        rcases List.mem_cons.mp hm with heq | hm
        · have h1 : r = a := congrArg Prod.fst heq
          have h2 : rv = av := congrArg Prod.snd heq
          subst h1
          subst h2
          refine ⟨c0, src0, nc0, hl0, ?_, ?_, hts0, htree0⟩
          · rw [hextR1, hrefu1]
            simp
          · rw [hext1, hobj1]
            have hz : alookup (repo.objects ++ staged.objects) c0 = none := by
              rw [hc0]
              exact alookup_freshRev_none _
            calc alookup (repo.objects ++ (staged.objects ++ [(c0, nc0)] ++ ext1)) c0
                = alookup ((repo.objects ++ staged.objects) ++ ((c0, nc0) :: ext1)) c0 := by
                  simp [List.append_assoc]
              _ = some nc0 := alookup_fresh_insert hz
        · have hIs1 : (loadCommit repo staged₁.objects rv).isSome = true := by
            rw [hobj1, loadCommit_append_stable _ hIs]
            exact hIs
          obtain ⟨c, src, nc, hl, hmem, hlook, hts, htree⟩ := hper r rv hm hIs1
          have hlv : loadCommit repo staged₁.objects rv =
              loadCommit repo staged.objects rv := by
            rw [hobj1]
            exact loadCommit_append_stable _ hIs
          rw [hlv] at hl
          exact ⟨c, src, nc, hl, hmem, hlook, hts, htree⟩

/-! ### `receive` path equations -/

theorem receive_rtp_error (repo : Repo) (remote : Remote) (cfg : Config)
    (reqRefs : List String) {e : String}
    (h1 : refsToPull repo.refs remote.refs cfg.force
      (wantedRefs reqRefs remote.refs) = .error e) :
    receive repo remote cfg reqRefs =
      { result := .error e, repo := repo, txEvents := [], metaCmd := none } := by
  simp only [receive]
  rw [h1]

theorem receive_rtp_nil (repo : Repo) (remote : Remote) (cfg : Config)
    (reqRefs : List String)
    (h1 : refsToPull repo.refs remote.refs cfg.force
      (wantedRefs reqRefs remote.refs) = .ok []) :
    receive repo remote cfg reqRefs =
      { result := .ok [], repo := repo, txEvents := [], metaCmd := none } := by
  simp only [receive]
  rw [h1]
  rfl

theorem receive_pull_error (repo : Repo) (remote : Remote) (cfg : Config)
    (reqRefs : List String) {rs : List (String × Nat)} {e : String}
    (h1 : refsToPull repo.refs remote.refs cfg.force
      (wantedRefs reqRefs remote.refs) = .ok rs)
    (hne : ¬ rs.length = 0)
    (h2 : pull_commits remote (dedupNats (rs.map Prod.snd)) = .error e) :
    receive repo remote cfg reqRefs =
      { result := .error e, repo := repo
        txEvents := [TxEvent.prepare, TxEvent.abort], metaCmd := none } := by
  simp only [receive]
  rw [h1]
  simp only []
  rw [if_neg hne, h2]

theorem receive_merge_error (repo : Repo) (remote : Remote) (cfg : Config)
    (reqRefs : List String) {rs : List (String × Nat)}
    {pulled : List (Nat × Commit)} {e : String}
    (h1 : refsToPull repo.refs remote.refs cfg.force
      (wantedRefs reqRefs remote.refs) = .ok rs)
    (hne : ¬ rs.length = 0)
    (h2 : pull_commits remote (dedupNats (rs.map Prod.snd)) = .ok pulled)
    (h3 : refsToMerge repo cfg.force pulled rs = .error e) :
    receive repo remote cfg reqRefs =
      { result := .error e, repo := repo
        txEvents := [TxEvent.prepare, TxEvent.abort], metaCmd := none } := by
  simp only [receive]
  rw [h1]
  simp only []
  rw [if_neg hne, h2]
  simp only []
  rw [h3]

theorem receive_ms_nil (repo : Repo) (remote : Remote) (cfg : Config)
    (reqRefs : List String) {rs : List (String × Nat)}
    {pulled : List (Nat × Commit)}
    (h1 : refsToPull repo.refs remote.refs cfg.force
      (wantedRefs reqRefs remote.refs) = .ok rs)
    (hne : ¬ rs.length = 0)
    (h2 : pull_commits remote (dedupNats (rs.map Prod.snd)) = .ok pulled)
    (h3 : refsToMerge repo cfg.force pulled rs = .ok []) :
    receive repo remote cfg reqRefs =
      { result := .ok [], repo := repo
        txEvents := [TxEvent.prepare, TxEvent.abort], metaCmd := none } := by
  simp only [receive]
  rw [h1]
  simp only []
  rw [if_neg hne, h2]
  simp only []
  rw [h3]
  rfl

theorem receive_dry (repo : Repo) (remote : Remote) (cfg : Config)
    (reqRefs : List String) {rs : List (String × Nat)}
    {pulled : List (Nat × Commit)} {ms : List (String × Nat)}
    (h1 : refsToPull repo.refs remote.refs cfg.force
      (wantedRefs reqRefs remote.refs) = .ok rs)
    (hne : ¬ rs.length = 0)
    (h2 : pull_commits remote (dedupNats (rs.map Prod.snd)) = .ok pulled)
    (h3 : refsToMerge repo cfg.force pulled rs = .ok ms)
    (hms : ¬ ms.length = 0)
    (hdr : cfg.dry_run = true) :
    receive repo remote cfg reqRefs =
      { result := .ok (ms.map Prod.fst), repo := repo
        txEvents := [TxEvent.prepare, TxEvent.abort], metaCmd := none } := by
  simp only [receive]
  rw [h1]
  simp only []
  rw [if_neg hne, h2]
  simp only []
  rw [h3]
  simp only []
  rw [if_neg hms, if_pos hdr]

theorem receive_copy_error (repo : Repo) (remote : Remote) (cfg : Config)
    (reqRefs : List String) {rs : List (String × Nat)}
    {pulled : List (Nat × Commit)} {ms : List (String × Nat)} {e : String}
    (h1 : refsToPull repo.refs remote.refs cfg.force
      (wantedRefs reqRefs remote.refs) = .ok rs)
    (hne : ¬ rs.length = 0)
    (h2 : pull_commits remote (dedupNats (rs.map Prod.snd)) = .ok pulled)
    (h3 : refsToMerge repo cfg.force pulled rs = .ok ms)
    (hms : ¬ ms.length = 0)
    (hdr : ¬ cfg.dry_run = true)
    (h4 : copyAll repo { objects := pulled, refUpdates := [] } ms = .error e) :
    receive repo remote cfg reqRefs =
      { result := .error e, repo := repo
        txEvents := [TxEvent.prepare, TxEvent.abort], metaCmd := none } := by
  simp only [receive]
  rw [h1]
  simp only []
  rw [if_neg hne, h2]
  simp only []
  rw [h3]
  simp only []
  rw [if_neg hms, if_neg hdr, h4]

theorem receive_publish (repo : Repo) (remote : Remote) (cfg : Config)
    (reqRefs : List String) {rs : List (String × Nat)}
    {pulled : List (Nat × Commit)} {ms : List (String × Nat)} {staged : Staged}
    (h1 : refsToPull repo.refs remote.refs cfg.force
      (wantedRefs reqRefs remote.refs) = .ok rs)
    (hne : ¬ rs.length = 0)
    (h2 : pull_commits remote (dedupNats (rs.map Prod.snd)) = .ok pulled)
    (h3 : refsToMerge repo cfg.force pulled rs = .ok ms)
    (hms : ¬ ms.length = 0)
    (hdr : ¬ cfg.dry_run = true)
    (h4 : copyAll repo { objects := pulled, refUpdates := [] } ms = .ok staged) :
    receive repo remote cfg reqRefs =
      { result := .ok (ms.map Prod.fst)
        repo := commitTx repo staged
        txEvents := [TxEvent.prepare, TxEvent.commit]
        metaCmd :=
          if cfg.update = true then
            some (update_repo_metadata (commitTx repo staged))
          else none } := by
  simp only [receive]
  rw [h1]
  simp only []
  rw [if_neg hne, h2]
  simp only []
  rw [h3]
  simp only []
  rw [if_neg hms, if_neg hdr, h4]

/-! ### Further helpers -/

theorem mergeDecision_inv {repo : Repo} {force : Bool}
    {pulled : List (Nat × Commit)} {ref : String} {rv : Nat}
    {d : Bool × List MergeWarning}
    (h : mergeDecision repo force pulled ref rv = .ok d) :
    (alookup repo.refs ref = none ∧ d = (true, [])) ∨
    (∃ cv curC remC, alookup repo.refs ref = some cv ∧
      loadCommit repo pulled cv = some curC ∧
      loadCommit repo pulled rv = some remC ∧
      d = mergeCheck force curC remC) := by
  unfold mergeDecision at h
  cases hcv : alookup repo.refs ref with
  | none =>
    rw [hcv] at h
    injection h with h
    exact Or.inl ⟨rfl, h.symm⟩
  | some cv =>
    rw [hcv] at h
    simp only [] at h
    cases hcur : loadCommit repo pulled cv with
    | none =>
      rw [hcur] at h
      cases hrem : loadCommit repo pulled rv with
      | none =>
        rw [hrem] at h
        exact Except.noConfusion h
      | some remC =>
        rw [hrem] at h
        exact Except.noConfusion h
    | some curC =>
      rw [hcur] at h
      cases hrem : loadCommit repo pulled rv with
      | none =>
        rw [hrem] at h
        exact Except.noConfusion h
      | some remC =>
        rw [hrem] at h
        injection h with h
        exact Or.inr ⟨cv, curC, remC, rfl, hcur, rfl, h.symm⟩

theorem mergeDecision_some {repo : Repo} {force : Bool}
    {pulled : List (Nat × Commit)} {ref : String} {rv cv : Nat}
    {curC remC : Commit}
    (h1 : alookup repo.refs ref = some cv)
    (h2 : loadCommit repo pulled cv = some curC)
    (h3 : loadCommit repo pulled rv = some remC) :
    mergeDecision repo force pulled ref rv = .ok (mergeCheck force curC remC) := by
  unfold mergeDecision
  rw [h1]
  simp only []
  rw [h2, h3]

theorem mergeCheck_not_newer {force : Bool} {curC remC : Commit}
    (h : ¬ curC.timestamp < remC.timestamp) :
    mergeCheck force curC remC = (force,
      (if remC.timestamp ≤ curC.timestamp then [MergeWarning.notNewer] else []) ++
      (if curC.tree = remC.tree then [MergeWarning.treesEqual] else [])) := by
  unfold mergeCheck
  rw [if_neg (fun hc => h hc.1)]

theorem alist_nodup_key_unique {l : List (String × Nat)}
    (hnd : (l.map Prod.fst).Nodup) {r : String} {v w : Nat}
    (h1 : (r, v) ∈ l) (h2 : (r, w) ∈ l) : v = w := by
  induction l with
  | nil => simp at h1
  | cons p rest ih =>
    obtain ⟨a, b⟩ := p
    simp only [List.map_cons, List.nodup_cons] at hnd
    obtain ⟨hna, hnrest⟩ := hnd
    rcases List.mem_cons.mp h1 with he1 | h1' <;>
      rcases List.mem_cons.mp h2 with he2 | h2'
    · have hv : v = b := congrArg Prod.snd he1
      have hw : w = b := congrArg Prod.snd he2
      rw [hv, hw]
    · have hr : r = a := congrArg Prod.fst he1
      exact absurd (hr ▸ List.mem_map_of_mem Prod.fst h2') hna
    · have hr : r = a := congrArg Prod.fst he2
      exact absurd (hr ▸ List.mem_map_of_mem Prod.fst h1') hna
    · exact ih hnrest h1' h2'

theorem mem_keys_exists {α β : Type} {l : List (α × β)} {k : α}
    (h : k ∈ l.map Prod.fst) : ∃ v, (k, v) ∈ l := by
  obtain ⟨⟨a, b⟩, hp, he⟩ := List.mem_map.mp h
  have he' : a = k := he
  exact ⟨b, he' ▸ hp⟩

theorem mem_vals_exists {α β : Type} {l : List (α × β)} {v : β}
    (h : v ∈ l.map Prod.snd) : ∃ k, (k, v) ∈ l := by
  obtain ⟨⟨a, b⟩, hp, he⟩ := List.mem_map.mp h
  have he' : b = v := he
  exact ⟨a, he' ▸ hp⟩

/-- Exhaustive classification of `receive` outcomes. -/
theorem receive_cases (repo : Repo) (remote : Remote) (cfg : Config)
    (reqRefs : List String) :
    (∃ e, receive repo remote cfg reqRefs =
      { result := .error e, repo := repo, txEvents := [], metaCmd := none }) ∨
    (receive repo remote cfg reqRefs =
      { result := .ok [], repo := repo, txEvents := [], metaCmd := none }) ∨
    (∃ e, receive repo remote cfg reqRefs =
      { result := .error e, repo := repo
        txEvents := [TxEvent.prepare, TxEvent.abort], metaCmd := none }) ∨
    (receive repo remote cfg reqRefs =
      { result := .ok [], repo := repo
        txEvents := [TxEvent.prepare, TxEvent.abort], metaCmd := none }) ∨
    (∃ ms : List (String × Nat), ¬ ms.length = 0 ∧ cfg.dry_run = true ∧
      receive repo remote cfg reqRefs =
        { result := .ok (ms.map Prod.fst), repo := repo
          txEvents := [TxEvent.prepare, TxEvent.abort], metaCmd := none }) ∨
    (∃ (ms : List (String × Nat)) (staged : Staged),
      ¬ ms.length = 0 ∧ ¬ cfg.dry_run = true ∧
      receive repo remote cfg reqRefs =
        { result := .ok (ms.map Prod.fst)
          repo := commitTx repo staged
          txEvents := [TxEvent.prepare, TxEvent.commit]
          metaCmd :=
            if cfg.update = true then
              some (update_repo_metadata (commitTx repo staged))
            else none }) := by
  cases h1 : refsToPull repo.refs remote.refs cfg.force
      (wantedRefs reqRefs remote.refs) with
  | error e => exact Or.inl ⟨e, receive_rtp_error repo remote cfg reqRefs h1⟩
  | ok rs =>
    by_cases hne : rs.length = 0
    · have hrs : rs = [] := List.length_eq_zero.mp hne
      subst hrs
      exact Or.inr (Or.inl (receive_rtp_nil repo remote cfg reqRefs h1))
    · cases h2 : pull_commits remote (dedupNats (rs.map Prod.snd)) with
      | error e =>
        exact Or.inr (Or.inr (Or.inl
          ⟨e, receive_pull_error repo remote cfg reqRefs h1 hne h2⟩))
      | ok pulled =>
        cases h3 : refsToMerge repo cfg.force pulled rs with
        | error e =>
          exact Or.inr (Or.inr (Or.inl
            ⟨e, receive_merge_error repo remote cfg reqRefs h1 hne h2 h3⟩))
        | ok ms =>
          by_cases hms : ms.length = 0
          · have hms' : ms = [] := List.length_eq_zero.mp hms
            subst hms'
            exact Or.inr (Or.inr (Or.inr (Or.inl
              (receive_ms_nil repo remote cfg reqRefs h1 hne h2 h3))))
          · by_cases hdr : cfg.dry_run = true
            · exact Or.inr (Or.inr (Or.inr (Or.inr (Or.inl
                ⟨ms, hms, hdr,
                  receive_dry repo remote cfg reqRefs h1 hne h2 h3 hms hdr⟩))))
            · cases h4 : copyAll repo { objects := pulled, refUpdates := [] } ms with
              | error e =>
                exact Or.inr (Or.inr (Or.inl
                  ⟨e, receive_copy_error repo remote cfg reqRefs
                    h1 hne h2 h3 hms hdr h4⟩))
              | ok staged =>
                exact Or.inr (Or.inr (Or.inr (Or.inr (Or.inr
                  ⟨ms, staged, hms, hdr,
                    receive_publish repo remote cfg reqRefs
                      h1 hne h2 h3 hms hdr h4⟩))))

/-! ### Claim C1 -/

/-- Claim C1 counterexample: the excluded-pattern filtering is applied even
to a non-empty, explicitly named ref set.  Requesting exactly
`appstream/x86_64` — which the remote advertises — yields an empty wanted
set, and `receive` returns the empty set instead of pulling the named ref,
so a requested ref IS removed by pattern exclusion. -/
theorem C1_counterexample :
    (["appstream/x86_64"] : List String) ≠ [] ∧
    "appstream/x86_64" ∈ (["appstream/x86_64"] : List String) ∧
    "appstream/x86_64" ∉ wantedRefs ["appstream/x86_64"] [("appstream/x86_64", 5)] ∧
    (receive repoEmpty
      { refs := [("appstream/x86_64", 5)], objects := [(5, commitB)] }
      cfgDef ["appstream/x86_64"]).result = .ok [] := by
  refine ⟨by decide, by decide, by decide, ?_⟩
  rfl

/-- Claim C1 (amended): in `receive`, the excluded generated-ref patterns
(`appstream/*`, `appstream2/*`, the store metadata ref) are applied
unconditionally — both when the caller requests the empty set (all remote
refs) and to explicitly named refs: a ref survives the filtering exactly
when it matches no excluded pattern and is drawn from the requested set
(or from the remote ref table when the requested set is empty). -/
theorem C1_amended (reqRefs : List String) (remoteRefs : List (String × Nat))
    (r : String) :
    r ∈ wantedRefs reqRefs remoteRefs ↔
      ¬ excludedRef r = true ∧
        r ∈ (if reqRefs.length = 0 then remoteRefs.map Prod.fst else reqRefs) :=
  mem_wantedRefs

/-! ### Claim C2 -/

/-- Claim C2 counterexample: requesting `test`, `foo` and `bar` from a
remote advertising only `test` fails at the first missing ref in sorted
order (`bar`), and the error message does not name the other missing ref
`foo` — the error is fail-fast, not batched. -/
theorem C2_counterexample :
    (receive repoEmpty remoteTest cfgDef ["test", "foo", "bar"]).result =
      .error "Could not find ref bar in summary file" ∧
    strContainsSub "Could not find ref bar in summary file" "foo" = false ∧
    alookup remoteTest.refs "foo" = none := by
  refine ⟨rfl, by decide, by decide⟩

/-- Claim C2 (amended): whenever some wanted ref has no revision in the
remote snapshot, `receive` fails with a RefNotFound-style error naming the
first missing ref in sorted request order (and only that ref), raised
before any transaction is begun and before any pull, so the local store is
left fully unmodified. -/
theorem C2_amended (repo : Repo) (remote : Remote) (cfg : Config)
    (reqRefs : List String)
    (hmiss : ∃ r ∈ wantedRefs reqRefs remote.refs,
      alookup remote.refs r = none) :
    ∃ ws₁ r ws₂,
      wantedRefs reqRefs remote.refs = ws₁ ++ r :: ws₂ ∧
      alookup remote.refs r = none ∧
      (∀ r' ∈ ws₁, (alookup remote.refs r').isSome = true) ∧
      receive repo remote cfg reqRefs =
        { result := .error ("Could not find ref " ++ r ++ " in summary file")
          repo := repo, txEvents := [], metaCmd := none } := by
  cases h1 : refsToPull repo.refs remote.refs cfg.force
      (wantedRefs reqRefs remote.refs) with
  | ok rs =>
    obtain ⟨r, hrmem, hrnone⟩ := hmiss
    have hsome := refsToPull_ok_present h1 r hrmem
    rw [hrnone] at hsome
    simp at hsome
  | error e =>
    obtain ⟨ws₁, r, ws₂, hsplit, hnone, hpre, hmsg⟩ := refsToPull_error_spec h1
    subst hmsg
    exact ⟨ws₁, r, ws₂, hsplit, hnone, hpre,
      receive_rtp_error repo remote cfg reqRefs h1⟩

/-- Witness for C2 (amended) at a concrete input. -/
theorem C2_witness :
    (∃ r ∈ wantedRefs ["test", "foo", "bar"] remoteTest.refs,
      alookup remoteTest.refs r = none) ∧
    (∃ ws₁ r ws₂,
      wantedRefs ["test", "foo", "bar"] remoteTest.refs = ws₁ ++ r :: ws₂ ∧
      alookup remoteTest.refs r = none ∧
      (∀ r' ∈ ws₁, (alookup remoteTest.refs r').isSome = true) ∧
      receive repoT1 remoteTest cfgDef ["test", "foo", "bar"] =
        { result := .error ("Could not find ref " ++ r ++ " in summary file")
          repo := repoT1, txEvents := [], metaCmd := none }) :=
  ⟨by decide,
    C2_amended repoT1 remoteTest cfgDef ["test", "foo", "bar"] (by decide)⟩

/-! ### Claim C4 -/

/-- Claim C4: for a pulled ref, the merge decision of `receive` is: a ref
with no local revision is always a merge candidate; a ref with a local
revision is a merge candidate exactly when the remote commit's timestamp
is strictly greater and the root trees differ, or `force` is set; in the
skip situation the recorded warnings are `notNewer` when timestamps are
not strictly increasing and `treesEqual` when the roots are equal, and the
ref is merged anyway exactly when `force` is set. -/
theorem C4_theorem (repo : Repo) (force : Bool) (pulled : List (Nat × Commit))
    (ref : String) (rv cv : Nat) (curC remC : Commit) :
    (alookup repo.refs ref = none →
      mergeDecision repo force pulled ref rv = .ok (true, [])) ∧
    (alookup repo.refs ref = some cv →
      loadCommit repo pulled cv = some curC →
      loadCommit repo pulled rv = some remC →
      mergeDecision repo force pulled ref rv = .ok (mergeCheck force curC remC)) ∧
    ((mergeCheck force curC remC).1 = true ↔
      ((curC.timestamp < remC.timestamp ∧ ¬ curC.tree = remC.tree) ∨
        force = true)) ∧
    ((curC.timestamp < remC.timestamp ∧ ¬ curC.tree = remC.tree) →
      mergeCheck force curC remC = (true, [])) ∧
    (¬ (curC.timestamp < remC.timestamp ∧ ¬ curC.tree = remC.tree) →
      (mergeCheck force curC remC).1 = force ∧
      (mergeCheck force curC remC).2 =
        (if remC.timestamp ≤ curC.timestamp then [MergeWarning.notNewer]
          else []) ++
        (if curC.tree = remC.tree then [MergeWarning.treesEqual] else [])) := by
  refine ⟨?_, ?_, ?_, ?_, ?_⟩
  · intro hn
    unfold mergeDecision
    rw [hn]
  · intro h1 h2 h3
    exact mergeDecision_some h1 h2 h3
  · by_cases hc : curC.timestamp < remC.timestamp ∧ ¬ curC.tree = remC.tree
    · unfold mergeCheck
      rw [if_pos hc]
      simp [hc]
    · unfold mergeCheck
      rw [if_neg hc]
      simp [hc]
  · intro hc
    unfold mergeCheck
    rw [if_pos hc]
  · intro hc
    unfold mergeCheck
    rw [if_neg hc]
    exact ⟨rfl, rfl⟩

/-- Witness for C4 at concrete inputs: a new ref is merged; a strictly
newer commit with a different tree is merged; an equal-tree commit is
skipped with the `treesEqual` warning. -/
theorem C4_witness :
    mergeDecision repoEmpty false [] "test" 3 = .ok (true, []) ∧
    mergeCheck false commitA commitB = (true, []) ∧
    mergeCheck false commitA commitC = (false, [MergeWarning.treesEqual]) := by
  refine ⟨?_, ?_, ?_⟩
  · exact (C4_theorem repoEmpty false [] "test" 3 0 commitA commitB).1 rfl
  · exact (C4_theorem repoEmpty false [] "test" 3 0 commitA commitB).2.2.2.1
      ⟨by decide, by decide⟩
  · have h := (C4_theorem repoEmpty false [] "test" 3 0 commitA commitC).2.2.2.2
      (by decide)
    have h2 : (if commitC.timestamp ≤ commitA.timestamp then
          [MergeWarning.notNewer] else []) ++
        (if commitA.tree = commitC.tree then [MergeWarning.treesEqual]
          else []) = [MergeWarning.treesEqual] := by decide
    calc mergeCheck false commitA commitC
        = ((mergeCheck false commitA commitC).1,
           (mergeCheck false commitA commitC).2) := rfl
      _ = (false, [MergeWarning.treesEqual]) := by rw [h.1, h.2, h2]

/-! ### Claim C5 -/

/-- Claim C5: a wanted ref is a pull candidate exactly when `force` is set
or its remote revision differs from the current local revision; and the
merge candidates are always drawn from the pull candidates, so a ref
skipped at the pull stage is skipped entirely. -/
theorem C5_theorem (repo : Repo) (remote : Remote) (cfg : Config)
    (reqRefs : List String) (rs ms : List (String × Nat))
    (pulled : List (Nat × Commit))
    (h : refsToPull repo.refs remote.refs cfg.force
      (wantedRefs reqRefs remote.refs) = .ok rs) :
    (∀ ref rv, (ref, rv) ∈ rs ↔
      ref ∈ wantedRefs reqRefs remote.refs ∧
        alookup remote.refs ref = some rv ∧
        (cfg.force = true ∨ ¬ some rv = alookup repo.refs ref)) ∧
    (refsToMerge repo cfg.force pulled rs = .ok ms →
      ∀ r rv, (r, rv) ∈ ms → (r, rv) ∈ rs) :=
  ⟨refsToPull_mem h, fun hm _ _ hmem => refsToMerge_sub hm _ hmem⟩

/-- Witness for C5 at a concrete input: `test` (changed) is a pull
candidate, `skip` (identical revisions, `force=false`) is not. -/
theorem C5_witness :
    ("test", 1) ∈ ([("test", 1)] : List (String × Nat)) ∧
    ¬ ("skip", 7) ∈ ([("test", 1)] : List (String × Nat)) := by
  have hc := C5_theorem repoSkip remoteTwo cfgDef ["test", "skip"]
    [("test", 1)] [] [] (by decide)
  constructor
  · exact (hc.1 "test" 1).mpr ⟨by decide, by decide, by decide⟩
  · intro hm
    have h3 := ((hc.1 "skip" 7).mp hm).2.2
    rcases h3 with h3 | h3
    · exact absurd h3 (by decide)
    · exact h3 (by decide)

/-! ### Claim C7 -/

/-- Claim C7: for every NORMAL source commit, `copy_commit` stages a new
commit whose content tree structurally equals the source commit's tree,
whose ref-binding metadata key equals exactly the singleton `[ref]`, whose
timestamp, subject and body equal the source commit's verbatim, and which
carries no detached signature metadata. -/
theorem C7_theorem (repo : Repo) (staged : Staged) (rev : Nat) (ref : String)
    (c : Nat) (st' : Staged)
    (h : copy_commit repo staged rev ref = .ok (c, st')) :
    ∃ src nc,
      loadCommit repo staged.objects rev = some src ∧
      src.state = CommitState.NORMAL ∧
      st'.objects = staged.objects ++ [(c, nc)] ∧
      st'.refUpdates = staged.refUpdates ++ [(ref, c)] ∧
      nc.tree = src.tree ∧
      alookup nc.metadata COMMIT_META_KEY_REF_BINDING = some (MetaVal.vs [ref]) ∧
      nc.timestamp = src.timestamp ∧
      nc.subject = src.subject ∧
      nc.body = src.body ∧
      nc.detachedMeta = false := by
  obtain ⟨src, nc, h1, h2, _, h4, h5, _, h7, h8, h9, h10, _, h12, h13⟩ :=
    copy_commit_spec h
  exact ⟨src, nc, h1, h2, h4, h5, h7, h13, h8, h9, h10, h12⟩

/-- Witness for C7: copying the concrete `commitA` onto the ref `test`. -/
theorem C7_witness :
    ∃ src nc,
      loadCommit repoEmpty stagedA.objects 1 = some src ∧
      src.state = CommitState.NORMAL ∧
      stagedA2.objects = stagedA.objects ++ [(2, nc)] ∧
      stagedA2.refUpdates = stagedA.refUpdates ++ [("test", 2)] ∧
      nc.tree = src.tree ∧
      alookup nc.metadata COMMIT_META_KEY_REF_BINDING =
        some (MetaVal.vs ["test"]) ∧
      nc.timestamp = src.timestamp ∧
      nc.subject = src.subject ∧
      nc.body = src.body ∧
      nc.detachedMeta = false :=
  C7_theorem repoEmpty stagedA 1 "test" 2 stagedA2 (by decide)

/-! ### Claim C10 -/

/-- Claim C10: when `force` is false and every wanted ref's remote
revision equals its current local revision, `receive` returns the empty
set without beginning a transaction and without pulling anything — the
local store is untouched on that path regardless of `dry_run`. -/
theorem C10_theorem (repo : Repo) (remote : Remote) (cfg : Config)
    (reqRefs : List String)
    (hforce : cfg.force = false)
    (hsame : ∀ r ∈ wantedRefs reqRefs remote.refs,
      (alookup remote.refs r).isSome = true ∧
        alookup remote.refs r = alookup repo.refs r) :
    receive repo remote cfg reqRefs =
      { result := .ok [], repo := repo, txEvents := [], metaCmd := none } := by
  obtain ⟨rs, hrs⟩ :=
    @refsToPull_ok_of_present repo.refs remote.refs cfg.force
      (wantedRefs reqRefs remote.refs) (fun r hr => (hsame r hr).1)
  have hnil : rs = [] := by
    cases hcase : rs with
    | nil => rfl
    | cons p rest =>
      obtain ⟨ref, rv⟩ := p
      have hm : (ref, rv) ∈ rs := hcase ▸ List.mem_cons_self _ _
      obtain ⟨hw, hl, hcond⟩ := (refsToPull_mem hrs ref rv).mp hm
      rcases hcond with hcond | hcond
      · rw [hforce] at hcond
        exact Bool.noConfusion hcond
      · obtain ⟨_, heq⟩ := hsame ref hw
        rw [hl] at heq
        exact absurd heq hcond
  subst hnil
  exact receive_rtp_nil repo remote cfg reqRefs hrs

/-- Witness for C10: local and remote both hold `test` at revision 1. -/
theorem C10_witness :
    receive repoT1 remoteTest cfgDry ["test"] =
      { result := .ok [], repo := repoT1, txEvents := [], metaCmd := none } :=
  C10_theorem repoT1 remoteTest cfgDry ["test"] rfl (by decide)

/-! ### Claim C3 -/

/-- Claim C3: every `receive` execution that begins a transaction ends it
exactly once, by commit or abort (the transaction trace is empty,
prepare-commit, or prepare-abort); a commit happens only on a successful
non-empty non-dry-run publish; and on any error the transaction is not
committed and the local store is left unchanged, so no partial ref
publication is observable. -/
theorem C3_theorem (repo : Repo) (remote : Remote) (cfg : Config)
    (reqRefs : List String) :
    ((receive repo remote cfg reqRefs).txEvents = [] ∨
      (receive repo remote cfg reqRefs).txEvents =
        [TxEvent.prepare, TxEvent.commit] ∨
      (receive repo remote cfg reqRefs).txEvents =
        [TxEvent.prepare, TxEvent.abort]) ∧
    (∀ e, (receive repo remote cfg reqRefs).result = .error e →
      (receive repo remote cfg reqRefs).txEvents ≠
        [TxEvent.prepare, TxEvent.commit] ∧
      (receive repo remote cfg reqRefs).repo = repo) ∧
    ((receive repo remote cfg reqRefs).txEvents =
        [TxEvent.prepare, TxEvent.commit] →
      ∃ s, (receive repo remote cfg reqRefs).result = .ok s ∧ s ≠ [] ∧
        cfg.dry_run = false) := by
  rcases receive_cases repo remote cfg reqRefs with
    ⟨e, ho⟩ | ho | ⟨e, ho⟩ | ho | ⟨ms, hms, hdr, ho⟩ | ⟨ms, staged, hms, hdr, ho⟩ <;>
    rw [ho]
  · exact ⟨Or.inl rfl, fun _ _ => ⟨by simp, rfl⟩, by simp⟩
  · exact ⟨Or.inl rfl, fun _ h => Except.noConfusion h, by simp⟩
  · exact ⟨Or.inr (Or.inr rfl), fun _ _ => ⟨by simp, rfl⟩, by simp⟩
  · exact ⟨Or.inr (Or.inr rfl), fun _ h => Except.noConfusion h, by simp⟩
  · exact ⟨Or.inr (Or.inr rfl), fun _ h => Except.noConfusion h, by simp⟩
  · refine ⟨Or.inr (Or.inl rfl), fun _ h => Except.noConfusion h, fun _ => ?_⟩
    refine ⟨ms.map Prod.fst, rfl, ?_, ?_⟩
    · intro hmap
      exact hms (by rw [List.length_eq_zero.mpr (List.map_eq_nil_iff.mp hmap)])
    · cases hdrv : cfg.dry_run with
      | false => rfl
      | true => exact absurd hdrv hdr

/-- Witness for C3: the committing publish path at a concrete input. -/
theorem C3_witness :
    ∃ s, (receive repoEmpty remoteTest cfgDef ["test"]).result = .ok s ∧
      s ≠ [] ∧ cfgDef.dry_run = false :=
  (C3_theorem repoEmpty remoteTest cfgDef ["test"]).2.2 rfl

/-! ### Claim C6 -/

/-- Claim C6: with `dry_run` set, `receive` never commits a transaction,
never runs the metadata update, and leaves the local store unchanged; on
the path where merge candidates exist it aborts the transaction and
returns exactly the merge-candidate ref names. -/
theorem C6_theorem (repo : Repo) (remote : Remote) (cfg : Config)
    (reqRefs : List String)
    (hdr : cfg.dry_run = true) :
    (receive repo remote cfg reqRefs).repo = repo ∧
    (receive repo remote cfg reqRefs).txEvents ≠
      [TxEvent.prepare, TxEvent.commit] ∧
    (receive repo remote cfg reqRefs).metaCmd = none ∧
    (∀ rs pulled ms,
      refsToPull repo.refs remote.refs cfg.force
        (wantedRefs reqRefs remote.refs) = .ok rs →
      ¬ rs.length = 0 →
      pull_commits remote (dedupNats (rs.map Prod.snd)) = .ok pulled →
      refsToMerge repo cfg.force pulled rs = .ok ms →
      ¬ ms.length = 0 →
      receive repo remote cfg reqRefs =
        { result := .ok (ms.map Prod.fst), repo := repo
          txEvents := [TxEvent.prepare, TxEvent.abort], metaCmd := none }) := by
  refine ⟨?_, ?_, ?_, ?_⟩
  · rcases receive_cases repo remote cfg reqRefs with
      ⟨e, ho⟩ | ho | ⟨e, ho⟩ | ho | ⟨ms, hms, _, ho⟩ |
      ⟨ms, staged, hms, hdr', ho⟩ <;> rw [ho]
    exact absurd hdr hdr'
  · rcases receive_cases repo remote cfg reqRefs with
      ⟨e, ho⟩ | ho | ⟨e, ho⟩ | ho | ⟨ms, hms, _, ho⟩ |
      ⟨ms, staged, hms, hdr', ho⟩ <;> rw [ho]
    · simp
    · simp
    · simp
    · simp
    · simp
    · exact absurd hdr hdr'
  · rcases receive_cases repo remote cfg reqRefs with
      ⟨e, ho⟩ | ho | ⟨e, ho⟩ | ho | ⟨ms, hms, _, ho⟩ |
      ⟨ms, staged, hms, hdr', ho⟩ <;> rw [ho]
    exact absurd hdr hdr'
  · intro rs pulled ms h1 hne h2 h3 hms
    exact receive_dry repo remote cfg reqRefs h1 hne h2 h3 hms hdr

/-- Witness for C6 at a concrete input: a dry run reports `test` as the
merge candidate and leaves the repository untouched. -/
theorem C6_witness :
    (receive repoEmpty remoteTest cfgDry ["test"]).repo = repoEmpty ∧
    receive repoEmpty remoteTest cfgDry ["test"] =
      { result := .ok (([("test", 1)] : List (String × Nat)).map Prod.fst)
        repo := repoEmpty
        txEvents := [TxEvent.prepare, TxEvent.abort], metaCmd := none } := by
  have hc := C6_theorem repoEmpty remoteTest cfgDry ["test"] rfl
  refine ⟨hc.1, ?_⟩
  exact hc.2.2.2 [("test", 1)] [(1, commitA)] [("test", 1)]
    (by decide) (by decide) (by decide) (by decide) (by decide)

/-! ### Claim C9 -/

/-- Claim C9 counterexample: with `update` disabled (`--no-update`), a
successful, non-empty, non-dry-run publish commits the transaction but
does NOT invoke the repository metadata regeneration step — so the
regeneration is not invoked after every successful publish. -/
theorem C9_counterexample :
    (receive repoEmpty remoteTest cfgNoUpdate ["test"]).txEvents =
      [TxEvent.prepare, TxEvent.commit] ∧
    (receive repoEmpty remoteTest cfgNoUpdate ["test"]).result = .ok ["test"] ∧
    cfgNoUpdate.dry_run = false ∧
    (receive repoEmpty remoteTest cfgNoUpdate ["test"]).metaCmd = none :=
  ⟨rfl, rfl, rfl, rfl⟩

/-- Claim C9 (amended): the metadata regeneration step runs exactly after
a successful, non-empty, non-dry-run publish **when the `update` config
option is enabled**; it is never invoked after a dry run, an empty merge
set, a failed transaction, or when `update` is disabled; and when it runs
it chooses the flatpak tool exactly when the store contains `app/` or
`runtime/` refs, the plain summary tool otherwise. -/
theorem C9_amended (repo : Repo) (remote : Remote) (cfg : Config)
    (reqRefs : List String) :
    (∀ t, (receive repo remote cfg reqRefs).metaCmd = some t →
      cfg.update = true ∧ cfg.dry_run = false ∧
      (receive repo remote cfg reqRefs).txEvents =
        [TxEvent.prepare, TxEvent.commit] ∧
      (∃ s, (receive repo remote cfg reqRefs).result = .ok s ∧ s ≠ []) ∧
      t = update_repo_metadata (receive repo remote cfg reqRefs).repo) ∧
    (cfg.update = true →
      (receive repo remote cfg reqRefs).txEvents =
        [TxEvent.prepare, TxEvent.commit] →
      (receive repo remote cfg reqRefs).metaCmd =
        some (update_repo_metadata (receive repo remote cfg reqRefs).repo)) ∧
    (∀ r : Repo, update_repo_metadata r = MetaCmd.flatpakBuildUpdateRepo ↔
      ∃ p ∈ r.refs, is_flatpak_ref p.1 = true) := by
  refine ⟨?_, ?_, ?_⟩
  · intro t hmc
    rcases receive_cases repo remote cfg reqRefs with
      ⟨e, ho⟩ | ho | ⟨e, ho⟩ | ho | ⟨ms, hms, hdrt, ho⟩ |
      ⟨ms, staged, hms, hdr, ho⟩
    · rw [ho] at hmc
      exact Option.noConfusion (show (none : Option MetaCmd) = some t from hmc)
    · rw [ho] at hmc
      exact Option.noConfusion (show (none : Option MetaCmd) = some t from hmc)
    · rw [ho] at hmc
      exact Option.noConfusion (show (none : Option MetaCmd) = some t from hmc)
    · rw [ho] at hmc
      exact Option.noConfusion (show (none : Option MetaCmd) = some t from hmc)
    · rw [ho] at hmc
      exact Option.noConfusion (show (none : Option MetaCmd) = some t from hmc)
    · rw [ho] at hmc
      have hmc' : (if cfg.update = true then
          some (update_repo_metadata (commitTx repo staged)) else none) =
          some t := hmc
      by_cases hupd : cfg.update = true
      · rw [if_pos hupd] at hmc'
        injection hmc' with hmc'
        have hdrf : cfg.dry_run = false := by
          cases hd : cfg.dry_run
          · rfl
          · exact absurd hd hdr
        rw [ho]
        refine ⟨hupd, hdrf, rfl, ⟨ms.map Prod.fst, rfl, ?_⟩, ?_⟩
        · intro hmap
          exact hms (by
            rw [List.length_eq_zero.mpr (List.map_eq_nil_iff.mp hmap)])
        · exact hmc'.symm
      · rw [if_neg hupd] at hmc'
        exact Option.noConfusion hmc'
  · intro hupd htx
    rcases receive_cases repo remote cfg reqRefs with
      ⟨e, ho⟩ | ho | ⟨e, ho⟩ | ho | ⟨ms, hms, hdrt, ho⟩ |
      ⟨ms, staged, hms, hdr, ho⟩
    · rw [ho] at htx
      exact absurd htx (by simp)
    · rw [ho] at htx
      exact absurd htx (by simp)
    · rw [ho] at htx
      exact absurd htx (by simp)
    · rw [ho] at htx
      exact absurd htx (by simp)
    · rw [ho] at htx
      exact absurd htx (by simp)
    · rw [ho]
      show (if cfg.update = true then
          some (update_repo_metadata (commitTx repo staged)) else none) =
        some (update_repo_metadata (commitTx repo staged))
      rw [if_pos hupd]
  · intro r
    unfold update_repo_metadata is_flatpak_repo
    by_cases hf : r.refs.any (fun p => is_flatpak_ref p.1) = true
    · rw [if_pos hf]
      constructor
      · intro _
        simpa using List.any_eq_true.mp hf
      · intro _
        rfl
    · rw [if_neg hf]
      constructor
      · intro hcon
        exact MetaCmd.noConfusion hcon
      · intro hex
        refine absurd (List.any_eq_true.mpr ?_) hf
        simpa using hex

/-- Witness for C9 (amended): a default-config publish invokes the plain
summary regeneration on the committed store. -/
theorem C9_witness :
    (receive repoEmpty remoteTest cfgDef ["test"]).metaCmd =
      some (update_repo_metadata
        (receive repoEmpty remoteTest cfgDef ["test"]).repo) :=
  (C9_amended repoEmpty remoteTest cfgDef ["test"]).2.1 rfl rfl

/-! ### Claim C8 -/

/-- Claim C8 counterexample: with `dry_run` enabled, the first `receive`
call is successful (returning the candidate `test`) and, since a dry run
changes nothing, the second call with the same arguments returns the same
NON-empty candidate set, not the empty merge set the claim requires. -/
theorem C8_counterexample :
    (receive repoEmpty remoteTest cfgDry ["test"]).result = .ok ["test"] ∧
    (receive (receive repoEmpty remoteTest cfgDry ["test"]).repo
      remoteTest cfgDry ["test"]).result = .ok ["test"] ∧
    (["test"] : List String) ≠ [] := by
  refine ⟨rfl, rfl, by decide⟩

/-- Claim C8 (amended): with `force` false and `dry_run` false, after one
successful `receive` call, a second call with the same arguments against
the unchanged remote updates no refs and returns the empty merge set: each
ref published by the first call now points at a rewritten commit carrying
the remote commit's own timestamp and tree, so no remote commit is
strictly newer, and every other ref is in the same state as before. -/
theorem C8_amended (repo : Repo) (remote : Remote) (cfg : Config)
    (reqRefs : List String) (s : List String)
    (hforce : cfg.force = false) (hdr : cfg.dry_run = false)
    (hok : (receive repo remote cfg reqRefs).result = .ok s) :
    (receive (receive repo remote cfg reqRefs).repo remote cfg reqRefs).result =
      .ok [] ∧
    (receive (receive repo remote cfg reqRefs).repo remote cfg reqRefs).repo =
      (receive repo remote cfg reqRefs).repo := by
  have hdr' : ¬ cfg.dry_run = true := by
    intro h
    rw [hdr] at h
    exact Bool.noConfusion h
  cases h1 : refsToPull repo.refs remote.refs cfg.force
      (wantedRefs reqRefs remote.refs) with
  | error e =>
    rw [receive_rtp_error repo remote cfg reqRefs h1] at hok
    exact Except.noConfusion hok
  | ok rs =>
    by_cases hne : rs.length = 0
    · have hrs : rs = [] := List.length_eq_zero.mp hne
      subst hrs
      have ho := receive_rtp_nil repo remote cfg reqRefs h1
      rw [ho]
      constructor
      · show (receive repo remote cfg reqRefs).result = .ok []
        rw [ho]
      · show (receive repo remote cfg reqRefs).repo = repo
        rw [ho]
    · cases h2 : pull_commits remote (dedupNats (rs.map Prod.snd)) with
      | error e =>
        rw [receive_pull_error repo remote cfg reqRefs h1 hne h2] at hok
        exact Except.noConfusion hok
      | ok pulled =>
        cases h3 : refsToMerge repo cfg.force pulled rs with
        | error e =>
          rw [receive_merge_error repo remote cfg reqRefs h1 hne h2 h3] at hok
          exact Except.noConfusion hok
        | ok ms =>
          by_cases hms : ms.length = 0
          · have hmsnil : ms = [] := List.length_eq_zero.mp hms
            subst hmsnil
            have ho := receive_ms_nil repo remote cfg reqRefs h1 hne h2 h3
            rw [ho]
            constructor
            · show (receive repo remote cfg reqRefs).result = .ok []
              rw [ho]
            · show (receive repo remote cfg reqRefs).repo = repo
              rw [ho]
          · cases h4 : copyAll repo { objects := pulled, refUpdates := [] } ms with
            | error e =>
              rw [receive_copy_error repo remote cfg reqRefs
                h1 hne h2 h3 hms hdr' h4] at hok
              exact Except.noConfusion hok
            | ok staged =>
              have ho := receive_publish repo remote cfg reqRefs
                h1 hne h2 h3 hms hdr' h4
              rw [ho]
              -- The published repository.
              show (receive (commitTx repo staged) remote cfg reqRefs).result =
                  .ok [] ∧
                (receive (commitTx repo staged) remote cfg reqRefs).repo =
                  commitTx repo staged
              -- Key-uniqueness of the plans.
              have hknd : (rs.map Prod.fst).Nodup :=
                List.Sublist.nodup (refsToPull_keys_sublist h1)
                  (nodup_wantedRefs reqRefs remote.refs)
              have hmsnd : (ms.map Prod.fst).Nodup :=
                List.Sublist.nodup (refsToMerge_keys_sublist h3) hknd
              -- Structure of the staged transaction.
              obtain ⟨⟨ext, hext⟩, ⟨extR, hextR, hkeysR⟩, hper⟩ := copyAll_spec h4
              have hext' : staged.objects = pulled ++ ext := hext
              have hRUkeys : staged.refUpdates.map Prod.fst = ms.map Prod.fst := by
                rw [hextR]
                simpa using hkeysR
              have hRUnodup : (staged.refUpdates.map Prod.fst).Nodup :=
                hRUkeys ▸ hmsnd
              -- Final ref-table lookups.
              have hrefs_mem : ∀ r c, (r, c) ∈ staged.refUpdates →
                  alookup (commitTx repo staged).refs r = some c := by
                intro r c hm
                show alookup (applyRefUpdates repo.refs staged.refUpdates) r =
                  some c
                exact alookup_applyRefUpdates_of_mem repo.refs hRUnodup hm
              have hrefs_other : ∀ r, ¬ r ∈ ms.map Prod.fst →
                  alookup (commitTx repo staged).refs r = alookup repo.refs r := by
                intro r hr
                show alookup (applyRefUpdates repo.refs staged.refUpdates) r =
                  alookup repo.refs r
                apply alookup_applyRefUpdates_not_mem
                rw [hRUkeys]
                exact hr
              -- The second pull plan exists and is contained in the first.
              have hp2 : ∀ r ∈ wantedRefs reqRefs remote.refs,
                  (alookup remote.refs r).isSome = true :=
                refsToPull_ok_present h1
              obtain ⟨rs₂, h1₂⟩ :=
                @refsToPull_ok_of_present (commitTx repo staged).refs remote.refs
                  cfg.force (wantedRefs reqRefs remote.refs) hp2
              have hsub2 : ∀ r rv, (r, rv) ∈ rs₂ → (r, rv) ∈ rs := by
                intro r rv hm2
                obtain ⟨hw, hl2, hcond2⟩ := (refsToPull_mem h1₂ r rv).mp hm2
                by_cases hrk : r ∈ ms.map Prod.fst
                · obtain ⟨rv', hmem'⟩ := mem_keys_exists hrk
                  have hrs' : (r, rv') ∈ rs := refsToMerge_sub h3 _ hmem'
                  have hlr : alookup remote.refs r = some rv' :=
                    ((refsToPull_mem h1 r rv').mp hrs').2.1
                  rw [hl2] at hlr
                  injection hlr with hlr
                  exact hlr ▸ hrs'
                · have hro := hrefs_other r hrk
                  refine (refsToPull_mem h1 r rv).mpr ⟨hw, hl2, ?_⟩
                  rcases hcond2 with hcond2 | hcond2
                  · exact Or.inl hcond2
                  · refine Or.inr ?_
                    rw [← hro]
                    exact hcond2
              -- The second pull succeeds.
              obtain ⟨pulled₂, h2₂⟩ := pull_commits_ok_of_present (by
                intro rv hm
                obtain ⟨r', hmem2⟩ := mem_vals_exists (mem_dedupNats.mp hm)
                have hinrs : (r', rv) ∈ rs := hsub2 _ _ hmem2
                have hmem3 : rv ∈ dedupNats (rs.map Prod.snd) :=
                  mem_dedupNats.mpr (List.mem_map_of_mem Prod.snd hinrs)
                rw [← pull_commits_ok_keys h2] at hmem3
                obtain ⟨c', hmem4⟩ := mem_keys_exists hmem3
                rw [pull_commits_ok_mem h2 rv c' hmem4]
                rfl)
              -- The second merge plan is empty.
              have h3₂ : refsToMerge (commitTx repo staged) cfg.force pulled₂
                  rs₂ = .ok [] := by
                apply refsToMerge_all_false
                intro r rv hm2
                have hinrs : (r, rv) ∈ rs := hsub2 r rv hm2
                obtain ⟨d, hdec, hiff⟩ :=
                  refsToMerge_mem_decision hknd h3 r rv hinrs
                by_cases hd : d.1 = true
                · -- merged by the first call: timestamps now coincide
                  have hmem : (r, rv) ∈ ms := hiff.mpr hd
                  have hrvp : rv ∈ pulled.map Prod.fst := by
                    have : rv ∈ dedupNats (rs.map Prod.snd) :=
                      mem_dedupNats.mpr
                        (List.mem_map_of_mem Prod.snd
                          (refsToMerge_sub h3 _ hmem))
                    rw [← pull_commits_ok_keys h2] at this
                    exact this
                  have hIs : (loadCommit repo pulled rv).isSome = true :=
                    loadCommit_isSome_of_staged hrvp
                  obtain ⟨c, src, nc, hl, hmemRU, hlook, hts, htree⟩ :=
                    hper r rv hmem hIs
                  have hl' : loadCommit repo pulled rv = some src := hl
                  have hc2refs : alookup (commitTx repo staged).refs r = some c :=
                    hrefs_mem r c hmemRU
                  have hcur2 : loadCommit (commitTx repo staged) pulled₂ c =
                      some nc := by
                    show alookup ((repo.objects ++ staged.objects) ++ pulled₂) c =
                      some nc
                    exact alookup_append_some _ hlook
                  have hrem2 : loadCommit (commitTx repo staged) pulled₂ rv =
                      some src := loadCommit_commitTx_stable hext' hl'
                  have hmd : mergeDecision (commitTx repo staged) cfg.force
                      pulled₂ r rv = .ok (mergeCheck cfg.force nc src) :=
                    mergeDecision_some hc2refs hcur2 hrem2
                  have hnlt : ¬ nc.timestamp < src.timestamp := by
                    rw [hts]
                    omega
                  exact ⟨(if src.timestamp ≤ nc.timestamp then
                        [MergeWarning.notNewer] else []) ++
                      (if nc.tree = src.tree then [MergeWarning.treesEqual]
                        else []),
                    by rw [hmd, mergeCheck_not_newer hnlt, hforce]⟩
                · -- skipped by the first call: identical data, skipped again
                  have hd' : d.1 = false := by
                    cases hdd : d.1
                    · rfl
                    · exact absurd hdd hd
                  rcases mergeDecision_inv hdec with
                    ⟨hnone, hdeq⟩ | ⟨cv, curC, remC, hcv, hcur, hrem, hdeq⟩
                  · rw [hdeq] at hd'
                    exact Bool.noConfusion hd'
                  · have hrnotms : ¬ r ∈ ms.map Prod.fst := by
                      intro hrk
                      obtain ⟨rv'', hmem''⟩ := mem_keys_exists hrk
                      have hrs'' : (r, rv'') ∈ rs := refsToMerge_sub h3 _ hmem''
                      have hvv : rv'' = rv :=
                        alist_nodup_key_unique hknd hrs'' hinrs
                      rw [hvv] at hmem''
                      exact hd (hiff.mp hmem'')
                    have hro := hrefs_other r hrnotms
                    have hcv2 : alookup (commitTx repo staged).refs r = some cv := by
                      rw [hro]
                      exact hcv
                    have hcur2 : loadCommit (commitTx repo staged) pulled₂ cv =
                        some curC := loadCommit_commitTx_stable hext' hcur
                    have hrem2 : loadCommit (commitTx repo staged) pulled₂ rv =
                        some remC := loadCommit_commitTx_stable hext' hrem
                    have hmd : mergeDecision (commitTx repo staged) cfg.force
                        pulled₂ r rv = .ok (mergeCheck cfg.force curC remC) :=
                      mergeDecision_some hcv2 hcur2 hrem2
                    have hdpair : d = (false, d.2) := by
                      calc d = (d.1, d.2) := rfl
                        _ = (false, d.2) := by rw [hd']
                    refine ⟨d.2, ?_⟩
                    rw [hmd, ← hdeq]
                    exact congrArg Except.ok hdpair
              -- Conclude: the second call aborts (or never starts) and
              -- returns the empty set.
              by_cases hne₂ : rs₂.length = 0
              · have hrs₂ : rs₂ = [] := List.length_eq_zero.mp hne₂
                subst hrs₂
                have ho₂ := receive_rtp_nil (commitTx repo staged) remote cfg
                  reqRefs h1₂
                rw [ho₂]
                exact ⟨rfl, rfl⟩
              · have ho₂ := receive_ms_nil (commitTx repo staged) remote cfg
                  reqRefs h1₂ hne₂ h2₂ h3₂
                rw [ho₂]
                exact ⟨rfl, rfl⟩

/-- Witness for C8 (amended): publishing `test` into an empty store and
receiving again is a no-op returning the empty set. -/
theorem C8_witness :
    (receive (receive repoEmpty remoteTest cfgDef ["test"]).repo remoteTest
      cfgDef ["test"]).result = .ok [] ∧
    (receive (receive repoEmpty remoteTest cfgDef ["test"]).repo remoteTest
      cfgDef ["test"]).repo = (receive repoEmpty remoteTest cfgDef ["test"]).repo :=
  C8_amended repoEmpty remoteTest cfgDef ["test"] ["test"] rfl rfl rfl

end OtPush
